import Mathlib

/-!
Ray-casting core: vector, DDA stepper, ray engine and camera motion

A shallow embedding of `vector.cc` and `camera.cc`.

Modelling conventions.

* A C++ `float` that the code keeps finite is an element of a linearly ordered
  field `K` with a floor function (`ℚ` for evaluation, `ℝ` for the statements
  that mention trigonometry); arithmetic is exact, rounding is not modelled.
* The only non-finite values the code creates on purpose are the infinities
  stored in `DDAData`; the two distance fields of `DDAData` and the returned
  `distance` are therefore values of `Flt K`, which adds `+inf`, `-inf` and
  `NaN` to `K` with the IEEE rules for `<`, `+` and `-`.
* `static_cast<int>(float)` is truncation toward zero, `truncToInt`; `int` is
  `Int` (no wrap-around).
* `level::kLevelData` is declared in `level_data.h`, which is not among the
  translated files; the grid is a parameter `level : Int → Int → Int`, read as
  `level x y` for `kLevelData[x][y]`.
* `std::sin`, `std::cos` and `std::tan` are the fields of a parameter
  `Libm K`.
* The `while` loop of `CalculateRay` runs on fuel: `none` means that the fuel
  ran out before a nonzero tile was read.
* `Reachable` holds of the camera states that the constructor and the member
  functions that write to the camera produce, with arbitrary arguments;
  `rayReads` and `Camera.moveReads` list the grid indices read by the loop of
  `CalculateRay` and by the collision tests of `HandleMotion`.
-/

namespace RayCasting

set_option linter.unusedSectionVars false

variable {K : Type} [LinearOrderedField K] [FloorRing K]

/-! ## Floating-point values that may be infinite -/

/-- A float of the DDA stepper: a finite value, an infinity or NaN. -/
inductive Flt (K : Type) where
  | fin (v : K)
  | pinf
  | ninf
  | nan
  deriving DecidableEq

namespace Flt

/-- IEEE `a < b`: false as soon as one side is NaN. -/
def lt (a b : Flt K) : Bool :=
  match a, b with
  | fin u, fin v => decide (u < v)
  | fin _, pinf => true
  | ninf, fin _ => true
  | ninf, pinf => true
  | _, _ => false

/-- IEEE `a + b`. -/
def add (a b : Flt K) : Flt K :=
  match a, b with
  | nan, _ => nan
  | _, nan => nan
  | fin u, fin v => fin (u + v)
  | pinf, ninf => nan
  | ninf, pinf => nan
  | pinf, _ => pinf
  | _, pinf => pinf
  | ninf, _ => ninf
  | _, ninf => ninf

/-- IEEE `a - b`. -/
def sub (a b : Flt K) : Flt K :=
  match a, b with
  | nan, _ => nan
  | _, nan => nan
  | fin u, fin v => fin (u - v)
  | pinf, pinf => nan
  | ninf, ninf => nan
  | pinf, _ => pinf
  | _, ninf => pinf
  | ninf, _ => ninf
  | _, pinf => ninf

end Flt

/-- Truncation toward zero: `static_cast<int>(p)`. -/
def truncToInt (p : K) : Int :=
  if 0 ≤ p then ⌊p⌋ else ⌈p⌉

/-- The three functions of the C math library the code calls. -/
structure Libm (K : Type) where
  sin : K → K
  cos : K → K
  tan : K → K

/-! ## `vector.cc` -/

/-- The class `Vector`: two floats. -/
structure Vector (K : Type) where
  x : K
  y : K
  deriving DecidableEq

namespace Vector

/-- `Vector::operator+`. -/
def add (a other : Vector K) : Vector K :=
  ⟨a.x + other.x, a.y + other.y⟩

/-- `Vector::operator*` (and `operator*=`). -/
def mul (a : Vector K) (scalar : K) : Vector K :=
  ⟨a.x * scalar, a.y * scalar⟩

/-- `Vector::Rotate`. -/
def Rotate (m : Libm K) (v : Vector K) (angle : K) : Vector K :=
  let sin_angle := m.sin angle
  let cos_angle := m.cos angle
  let new_x := v.x * cos_angle + v.y * sin_angle
  let new_y := v.x * -sin_angle + v.y * cos_angle
  ⟨new_x, new_y⟩

end Vector

/-! ## `camera.h`: enumerations and records -/

/-- The enum `motion::AccelState`. -/
inductive AccelState where
  | kNone
  | kAccelerate
  | kDeaccelerate
  deriving DecidableEq

/-- The enum `motion::AccelDirection`. -/
inductive AccelDirection where
  | kNone
  | kForward
  | kBackward
  deriving DecidableEq

/-- The enum `motion::RotationDirection`. -/
inductive RotationDirection where
  | kNone
  | kClockwise
  | kCounterclockwise
  deriving DecidableEq

/-- The underlying integer of an `AccelDirection`: `static_cast<int>`. -/
def AccelDirection.toInt : AccelDirection → Int
  | .kNone => 0
  | .kForward => 1
  | .kBackward => -1

/-- The underlying integer of a `RotationDirection`: `static_cast<int>`. -/
def RotationDirection.toInt : RotationDirection → Int
  | .kNone => 0
  | .kClockwise => 1
  | .kCounterclockwise => -1

/-- The enum `raycasting::WallSide`. -/
inductive WallSide where
  | kXSide
  | kYSide
  deriving DecidableEq

/-- The struct `raycasting::RayData`. -/
structure RayData (K : Type) where
  distance : Flt K
  wall_id : Int
  wall_side : WallSide
  deriving DecidableEq

/-- The struct `raycasting::DDAData`. -/
structure DDAData (K : Type) where
  tile : Int
  step : Int
  delta_dist : Flt K
  init_dist : Flt K
  deriving DecidableEq

/-- The constructor `DDAData::DDAData(position, ray_direction)`. -/
def DDAData.new (position ray_direction : K) : DDAData K :=
  let tile : Int := truncToInt position
  if ray_direction = 0 then
    ⟨tile, 0, Flt.pinf, Flt.pinf⟩
  else
    let delta_dist : K := 1 / |ray_direction|
    if ray_direction > 0 then
      ⟨tile, 1, Flt.fin delta_dist, Flt.fin (((tile : K) + 1 - position) * delta_dist)⟩
    else
      ⟨tile, -1, Flt.fin delta_dist, Flt.fin ((position - (tile : K)) * delta_dist)⟩

/-- The private data members of the class `Camera`. -/
structure Camera (K : Type) where
  plane_length : K
  position : Vector K
  direction : Vector K
  plane : Vector K
  accel_state : AccelState
  accel_direction : AccelDirection
  movement_speed : K
  rotation_speed : K
  deriving DecidableEq

/-- The constant `Camera::kMaxMovementSpeed = 2.5f`. -/
def kMaxMovementSpeed : K := 5 / 2

/-- The constant `Camera::kMaxRotationSpeed = 1.5f`. -/
def kMaxRotationSpeed : K := 3 / 2

namespace Camera

/-- `Camera::UpdatePlane`. -/
def UpdatePlane (cam : Camera K) : Camera K :=
  let plane : Vector K := ⟨cam.direction.y, -cam.direction.x⟩
  { cam with plane := plane.mul cam.plane_length }

/-- The constructor `Camera::Camera(x, y, angle, fov)`; the members with a
default initialiser start at `kNone` and `0.0f`, the plane at `Vector()`. -/
def new (m : Libm K) (x y angle fov : K) : Camera K :=
  UpdatePlane
    { plane_length := m.tan (fov / 2)
      position := ⟨x, y⟩
      direction := ⟨m.cos angle, m.sin angle⟩
      plane := ⟨0, 0⟩
      accel_state := AccelState.kNone
      accel_direction := AccelDirection.kNone
      movement_speed := 0
      rotation_speed := 0 }

/-- `Camera::SetAcceleration`. -/
def SetAcceleration (cam : Camera K) (accel_state : AccelState)
    (accel_direction : AccelDirection) : Camera K :=
  { cam with accel_state := accel_state, accel_direction := accel_direction }

/-- `Camera::SetMovementSpeed`. -/
def SetMovementSpeed (cam : Camera K) (frame_time : K) : Camera K :=
  let accel_direction : Int := cam.accel_direction.toInt
  match cam.accel_state with
  | AccelState.kAccelerate =>
    if cam.movement_speed * (accel_direction : K) < kMaxMovementSpeed then
      { cam with
        movement_speed :=
          cam.movement_speed + kMaxMovementSpeed * (accel_direction : K) * frame_time }
    else
      SetAcceleration { cam with movement_speed := kMaxMovementSpeed * (accel_direction : K) }
        AccelState.kNone AccelDirection.kNone
  | AccelState.kDeaccelerate =>
    if cam.movement_speed * (accel_direction : K) > 0 then
      { cam with
        movement_speed :=
          cam.movement_speed - kMaxMovementSpeed * (accel_direction : K) * frame_time }
    else
      SetAcceleration { cam with movement_speed := 0 }
        AccelState.kNone AccelDirection.kNone
  | AccelState.kNone => cam

/-- `Camera::SetRotationSpeed`. -/
def SetRotationSpeed (cam : Camera K) (rotation_direction : RotationDirection) : Camera K :=
  { cam with rotation_speed := kMaxRotationSpeed * (rotation_direction.toInt : K) }

/-- The first `if` of `Camera::HandleMotion`: the move with its two collision
tests, both made with the tiles computed before any coordinate is written. -/
def HandleMove (level : Int → Int → Int) (cam : Camera K) (frame_time : K) : Camera K :=
  if cam.movement_speed ≠ 0 then
    let position_offset := cam.direction.mul (cam.movement_speed * frame_time)
    let new_position := cam.position.add position_offset
    let tile_x : Int := truncToInt cam.position.x
    let tile_y : Int := truncToInt cam.position.y
    let tile_new_x : Int := truncToInt new_position.x
    let tile_new_y : Int := truncToInt new_position.y
    let px := if level tile_new_x tile_y = 0 then new_position.x else cam.position.x
    let py := if level tile_x tile_new_y = 0 then new_position.y else cam.position.y
    { cam with position := ⟨px, py⟩ }
  else cam

/-- The second `if` of `Camera::HandleMotion`: the rotation. -/
def HandleRotation (m : Libm K) (cam : Camera K) (frame_time : K) : Camera K :=
  if cam.rotation_speed ≠ 0 then
    UpdatePlane
      { cam with direction := cam.direction.Rotate m (cam.rotation_speed * frame_time) }
  else cam

/-- `Camera::HandleMotion`. -/
def HandleMotion (m : Libm K) (level : Int → Int → Int) (cam : Camera K)
    (frame_time : K) : Camera K :=
  HandleRotation m (HandleMove level cam frame_time) frame_time

end Camera

/-! ## The ray engine -/

/-- The local variables of `Camera::CalculateRay` that its loop reads and
writes; `wall_side` is `none` until the first assignment. -/
structure RayState (K : Type) where
  dda_data_x : DDAData K
  dda_data_y : DDAData K
  wall_id : Int
  wall_side : Option WallSide
  deriving DecidableEq

/-- One execution of the body of the `while` loop of `CalculateRay`. -/
def rayBody (level : Int → Int → Int) (s : RayState K) : RayState K :=
  if Flt.lt s.dda_data_x.init_dist s.dda_data_y.init_dist then
    let dx : DDAData K :=
      ⟨s.dda_data_x.tile + s.dda_data_x.step, s.dda_data_x.step, s.dda_data_x.delta_dist,
        Flt.add s.dda_data_x.init_dist s.dda_data_x.delta_dist⟩
    ⟨dx, s.dda_data_y, level dx.tile s.dda_data_y.tile, some WallSide.kXSide⟩
  else
    let dy : DDAData K :=
      ⟨s.dda_data_y.tile + s.dda_data_y.step, s.dda_data_y.step, s.dda_data_y.delta_dist,
        Flt.add s.dda_data_y.init_dist s.dda_data_y.delta_dist⟩
    ⟨s.dda_data_x, dy, level s.dda_data_x.tile dy.tile, some WallSide.kYSide⟩

/-- The loop `while (wall_id == 0) { ... }` on fuel. -/
def rayLoop (level : Int → Int → Int) : Nat → RayState K → Option (RayState K)
  | fuel, s =>
    if s.wall_id = 0 then
      match fuel with
      | 0 => none
      | n + 1 => rayLoop level n (rayBody level s)
    else some s

/-- The state of `CalculateRay` on entry to its loop. -/
def rayInit (cam : Camera K) (plane_scalar : K) : RayState K :=
  let ray_direction := cam.direction.add (cam.plane.mul plane_scalar)
  ⟨DDAData.new cam.position.x ray_direction.x, DDAData.new cam.position.y ray_direction.y,
    0, none⟩

/-- The code of `CalculateRay` after its loop. A `wall_side` that was never
assigned has no defined value: no result. -/
def rayResult (s : RayState K) : Option (RayData K) :=
  match s.wall_side with
  | some WallSide.kXSide =>
    some ⟨Flt.sub s.dda_data_x.init_dist s.dda_data_x.delta_dist, s.wall_id, WallSide.kXSide⟩
  | some WallSide.kYSide =>
    some ⟨Flt.sub s.dda_data_y.init_dist s.dda_data_y.delta_dist, s.wall_id, WallSide.kYSide⟩
  | none => none

/-- `Camera::CalculateRay`. -/
def Camera.CalculateRay (level : Int → Int → Int) (cam : Camera K) (plane_scalar : K)
    (fuel : Nat) : Option (RayData K) :=
  (rayLoop level fuel (rayInit cam plane_scalar)).bind rayResult

/-- The 5 x 5 room: border cells hold 1, interior cells hold 0. -/
def room5 (x y : Int) : Int :=
  if 0 ≤ x ∧ x < 5 ∧ 0 ≤ y ∧ y < 5 then
    if x = 0 ∨ x = 4 ∨ y = 0 ∨ y = 4 then 1 else 0
  else 0

/-- The grid `level` is closed over `W` x `H`: every border cell of the
rectangle `[0, W) x [0, H)` holds a nonzero tile. -/
def ClosedMap (level : Int → Int → Int) (W H : Int) : Prop :=
  ∀ x y : Int, 0 ≤ x → x < W → 0 ≤ y → y < H →
    (x = 0 ∨ x = W - 1 ∨ y = 0 ∨ y = H - 1) → level x y ≠ 0

/-- The tile `(x, y)` is an interior cell of the `W` x `H` rectangle. -/
def InteriorTile (W H x y : Int) : Prop :=
  0 < x ∧ x < W - 1 ∧ 0 < y ∧ y < H - 1

/-- The two shapes a stepper has during a ray cast: idle (step 0, both
distances infinite) or moving (step 1 or -1, both distances finite). -/
def DDAData.Shaped (d : DDAData K) : Prop :=
  (d.step = 0 ∧ d.init_dist = Flt.pinf ∧ d.delta_dist = Flt.pinf) ∨
  ((d.step = 1 ∨ d.step = -1) ∧ ∃ a b : K, d.init_dist = Flt.fin a ∧ d.delta_dist = Flt.fin b)

/-- The number of tiles between the stepper and the border it walks to, over
an axis of `n` tiles. -/
def DDAData.togo (n : Int) (d : DDAData K) : Int :=
  if d.step = 1 then n - 1 - d.tile else if d.step = -1 then d.tile else 0

/-- The stepper `d` after one advance: what the loop body does to the axis it
selects. -/
def DDAData.advance (d : DDAData K) : DDAData K :=
  ⟨d.tile + d.step, d.step, d.delta_dist, Flt.add d.init_dist d.delta_dist⟩

/-- The camera after `n` calls of `SetMovementSpeed(frame_time)` in a row. -/
def Camera.ramp (cam : Camera K) (frame_time : K) : Nat → Camera K
  | 0 => cam
  | n + 1 => (Camera.ramp cam frame_time n).SetMovementSpeed frame_time

/-- The grid with a wall in every cell of column `1` and no wall elsewhere. -/
def rightWall (x _y : Int) : Int :=
  if x = 1 then 1 else 0

/-- A camera in tile `(0, 0)` that faces `+x` and moves forward. -/
def advancingCamera : Camera ℚ :=
  ⟨1, ⟨1 / 2, 1 / 2⟩, ⟨1, 0⟩, ⟨0, -1⟩, AccelState.kNone, AccelDirection.kNone, 1, 0⟩

/-- The X stepper is idle and the Y stepper moves. -/
def IdleX (s : RayState K) : Prop :=
  s.dda_data_x.step = 0 ∧ s.dda_data_x.init_dist = Flt.pinf ∧
  s.dda_data_x.delta_dist = Flt.pinf ∧ s.dda_data_y.Shaped ∧
  (s.dda_data_y.step = 1 ∨ s.dda_data_y.step = -1)

/-- The Y stepper is idle and the X stepper moves. -/
def IdleY (s : RayState K) : Prop :=
  s.dda_data_y.step = 0 ∧ s.dda_data_y.init_dist = Flt.pinf ∧
  s.dda_data_y.delta_dist = Flt.pinf ∧ s.dda_data_x.Shaped ∧
  (s.dda_data_x.step = 1 ∨ s.dda_data_x.step = -1)

/-- The laws of sine and cosine that the camera relies on. -/
def Libm.Lawful (m : Libm K) : Prop :=
  m.sin 0 = 0 ∧ m.cos 0 = 1 ∧ ∀ a : K, m.sin a ^ 2 + m.cos a ^ 2 = 1

/-- The camera states that the constructor and the public member functions
that write to the camera can produce, with arbitrary arguments. -/
inductive Reachable (m : Libm K) (level : Int → Int → Int) : Camera K → Prop where
  | construct (x y angle fov : K) : Reachable m level (Camera.new m x y angle fov)
  | updatePlane {cam : Camera K} : Reachable m level cam → Reachable m level cam.UpdatePlane
  | setAcceleration {cam : Camera K} (accel_state : AccelState)
      (accel_direction : AccelDirection) :
      Reachable m level cam → Reachable m level (cam.SetAcceleration accel_state accel_direction)
  | setMovementSpeed {cam : Camera K} (frame_time : K) :
      Reachable m level cam → Reachable m level (cam.SetMovementSpeed frame_time)
  | setRotationSpeed {cam : Camera K} (rotation_direction : RotationDirection) :
      Reachable m level cam → Reachable m level (cam.SetRotationSpeed rotation_direction)
  | handleMotion {cam : Camera K} (frame_time : K) :
      Reachable m level cam → Reachable m level (cam.HandleMotion m level frame_time)

/-- The plane is the direction turned by a quarter and scaled by
`plane_length`: what `UpdatePlane` establishes. -/
def Camera.PlaneOk (cam : Camera K) : Prop :=
  cam.plane = (⟨cam.direction.y, -cam.direction.x⟩ : Vector K).mul cam.plane_length

/-- One frame of motion integration, as in the main loop:
`SetMovementSpeed(frame_time)` followed by `HandleMotion(frame_time)`. -/
def Camera.frame (m : Libm K) (level : Int → Int → Int) (cam : Camera K) (frame_time : K) :
    Camera K :=
  (cam.SetMovementSpeed frame_time).HandleMotion m level frame_time

/-- The stepper `d` of an axis, for the start coordinate `position` and the
ray component `r`, is on the ray: when its distances are the finite `a` and
`b`, one `delta_dist` spans one tile (`b * r` is the step) and the ray
parameter `a - b` is where the ray crosses the grid line through which it
entered the tile of the stepper: the line `tile` when stepping `+1`, the line
`tile + 1` when stepping `-1`. -/
def DDAData.OnRay (position r : K) (d : DDAData K) : Prop :=
  ∀ a b : K, d.init_dist = Flt.fin a → d.delta_dist = Flt.fin b →
    (d.step = 1 → b * r = 1 ∧ position + (a - b) * r = (d.tile : K)) ∧
    (d.step = -1 → b * r = -1 ∧ position + (a - b) * r = (d.tile : K) + 1)

/-- The invariant of the loop of `CalculateRay` for a ray that starts at
`(px, py)` with the direction `(rx, ry)`, not both zero. -/
def RayInv (level : Int → Int → Int) (px rx py ry : K) (s : RayState K) : Prop :=
  s.dda_data_x.Shaped ∧ s.dda_data_y.Shaped ∧
  ¬ (s.dda_data_x.step = 0 ∧ s.dda_data_y.step = 0) ∧
  s.dda_data_x.OnRay px rx ∧ s.dda_data_y.OnRay py ry ∧
  (s.wall_side = some WallSide.kXSide → s.dda_data_x.step = 1 ∨ s.dda_data_x.step = -1) ∧
  (s.wall_side = some WallSide.kYSide → s.dda_data_y.step = 1 ∨ s.dda_data_y.step = -1) ∧
  (s.wall_side ≠ none → s.wall_id = level s.dda_data_x.tile s.dda_data_y.tile)

/-- The grid indices that the loop of `CalculateRay` reads, in the order of
the reads, over `fuel` iterations at most. -/
def rayReads (level : Int → Int → Int) : Nat → RayState K → List (Int × Int)
  | fuel, s =>
    if s.wall_id = 0 then
      match fuel with
      | 0 => []
      | n + 1 =>
        ((rayBody level s).dda_data_x.tile, (rayBody level s).dda_data_y.tile)
          :: rayReads level n (rayBody level s)
    else []

/-- A bounds-checked lookup in a grid of `W` x `H` tiles: `none` outside
`[0, W) x [0, H)`. -/
def tileAt (level : Int → Int → Int) (W H x y : Int) : Option Int :=
  if 0 ≤ x ∧ x < W ∧ 0 ≤ y ∧ y < H then some (level x y) else none

/-- The grid cells that the two collision tests of `HandleMotion` read:
`(tile_new_x, tile_y)` and `(tile_x, tile_new_y)`; none when the camera does
not move. -/
def Camera.moveReads (cam : Camera K) (frame_time : K) : List (Int × Int) :=
  if cam.movement_speed ≠ 0 then
    let position_offset := cam.direction.mul (cam.movement_speed * frame_time)
    let new_position := cam.position.add position_offset
    let tile_x : Int := truncToInt cam.position.x
    let tile_y : Int := truncToInt cam.position.y
    let tile_new_x : Int := truncToInt new_position.x
    let tile_new_y : Int := truncToInt new_position.y
    [(tile_new_x, tile_y), (tile_x, tile_new_y)]
  else []

/-- A camera in the interior tile `(3, 2)` of `room5` that faces `+x` at the
maximum speed. -/
def fastCamera : Camera ℚ :=
  ⟨1, ⟨7 / 2, 5 / 2⟩, ⟨1, 0⟩, ⟨0, -1⟩, AccelState.kNone, AccelDirection.kNone, 5 / 2, 0⟩

/-- The 5 x 5 room with a pillar of tile 2 in its centre cell `(2, 2)`. -/
def pillarRoom (x y : Int) : Int :=
  if x = 2 ∧ y = 2 then 2 else room5 x y

/-- A camera in the tile `(1, 1)` of `pillarRoom`, close to the corner of the
pillar, that moves along the unit direction `(3/5, 4/5)` at speed 1. -/
def cornerCamera : Camera ℚ :=
  ⟨1, ⟨19 / 10, 19 / 10⟩, ⟨3 / 5, 4 / 5⟩, ⟨4 / 5, -3 / 5⟩, AccelState.kNone,
    AccelDirection.kNone, 1, 0⟩

/-- The second invariant of the loop of `CalculateRay`, for the start tile
`(tx0, ty0)` and the ray direction `(rx, ry)`: a stepper with step `+1` has a
positive ray component and a tile not below the start tile, a stepper with
step `-1` has a negative ray component and a tile not above the start tile,
and the stepper of the side recorded last has left the start tile. -/
def RayAhead (tx0 ty0 : Int) (rx ry : K) (s : RayState K) : Prop :=
  (s.dda_data_x.step = 1 → 0 < rx ∧ tx0 ≤ s.dda_data_x.tile) ∧
  (s.dda_data_x.step = -1 → rx < 0 ∧ s.dda_data_x.tile ≤ tx0) ∧
  (s.dda_data_y.step = 1 → 0 < ry ∧ ty0 ≤ s.dda_data_y.tile) ∧
  (s.dda_data_y.step = -1 → ry < 0 ∧ s.dda_data_y.tile ≤ ty0) ∧
  (s.wall_side = some WallSide.kXSide →
    (s.dda_data_x.step = 1 → tx0 + 1 ≤ s.dda_data_x.tile) ∧
    (s.dda_data_x.step = -1 → s.dda_data_x.tile ≤ tx0 - 1)) ∧
  (s.wall_side = some WallSide.kYSide →
    (s.dda_data_y.step = 1 → ty0 + 1 ≤ s.dda_data_y.tile) ∧
    (s.dda_data_y.step = -1 → s.dda_data_y.tile ≤ ty0 - 1))

/-- A camera of `room5` that stands on the grid line `x = 1`, the face of
the wall tile `(0, 2)`, in the empty tile `(1, 2)`, and looks at that wall. -/
def faceCamera : Camera ℚ :=
  ⟨1, ⟨1, 5 / 2⟩, ⟨-1, 0⟩, ⟨0, 1⟩, AccelState.kNone, AccelDirection.kNone, 0, 0⟩

/-- The point `(x, y)` lies in the closed tile `(i, j)`, the square
`[i, i + 1] x [j, j + 1]`. -/
def InTile (i j : Int) (x y : K) : Prop :=
  (i : K) ≤ x ∧ x ≤ (i : K) + 1 ∧ (j : K) ≤ y ∧ y ≤ (j : K) + 1

/-- The third invariant of the loop of `CalculateRay`, for a ray that starts
at `(px, py)` with the direction `(rx, ry)`: the ray has been followed up to
a parameter `now`. An idle axis has a zero ray component and a coordinate
inside its tile; `wall_id` is the value of the grid at the current tile;
`now` is not negative and is the distance that the code would return for the
side recorded last; on each moving axis `now` lies between the parameter at
which the ray entered the current tile and the parameter `init_dist` at which
it leaves it; and every point of the ray up to `now` lies in a closed tile
that is empty. -/
def RayClock (level : Int → Int → Int) (px rx py ry : K) (s : RayState K) : Prop :=
  (s.dda_data_x.step = 0 →
    rx = 0 ∧ (s.dda_data_x.tile : K) ≤ px ∧ px ≤ (s.dda_data_x.tile : K) + 1) ∧
  (s.dda_data_y.step = 0 →
    ry = 0 ∧ (s.dda_data_y.tile : K) ≤ py ∧ py ≤ (s.dda_data_y.tile : K) + 1) ∧
  s.wall_id = level s.dda_data_x.tile s.dda_data_y.tile ∧
  ∃ now : K, 0 ≤ now ∧
    (s.wall_side = some WallSide.kXSide →
      Flt.sub s.dda_data_x.init_dist s.dda_data_x.delta_dist = Flt.fin now) ∧
    (s.wall_side = some WallSide.kYSide →
      Flt.sub s.dda_data_y.init_dist s.dda_data_y.delta_dist = Flt.fin now) ∧
    (∀ a b : K, s.dda_data_x.init_dist = Flt.fin a → s.dda_data_x.delta_dist = Flt.fin b →
      0 < b ∧ a - b ≤ now ∧ now ≤ a) ∧
    (∀ a b : K, s.dda_data_y.init_dist = Flt.fin a → s.dda_data_y.delta_dist = Flt.fin b →
      0 < b ∧ a - b ≤ now ∧ now ≤ a) ∧
    (∀ u : K, 0 ≤ u → u ≤ now →
      ∃ i j : Int, level i j = 0 ∧ InTile i j (px + u * rx) (py + u * ry))

/-- A camera at the centre of `room5` whose ray for `plane_scalar = -1` is the
diagonal `(1, 1)`. -/
def tieCamera : Camera ℚ :=
  ⟨1, ⟨5 / 2, 5 / 2⟩, ⟨1, 0⟩, ⟨0, -1⟩, AccelState.kNone, AccelDirection.kNone, 0, 0⟩

/-! ## Evaluation lemmas -/

theorem Flt.lt_self (a : Flt K) : Flt.lt a a = false := by
  cases a <;> simp [Flt.lt]

theorem truncToInt_of_nonneg {p : K} (h : 0 ≤ p) : truncToInt p = ⌊p⌋ := by
  simp [truncToInt, h]

theorem truncToInt_of_neg {p : K} (h : p < 0) : truncToInt p = ⌈p⌉ := by
  simp [truncToInt, not_le.mpr h]

theorem truncToInt_five_halves : truncToInt (5 / 2 : K) = 2 := by
  rw [truncToInt_of_nonneg (by positivity), Int.floor_eq_iff]
  constructor <;> norm_num

/-! ## C1: the tie-break of the stepping loop -/

/-- C1 (as amended): when the two `init_dist` values are equal, the loop body
advances the Y axis: the Y tile moves by the Y step, the Y `init_dist` grows
by the Y `delta_dist`, the candidate side is `kYSide`, and the X stepper is
left as it was. -/
theorem rayBody_tie_advances_y (level : Int → Int → Int) (s : RayState K)
    (h : s.dda_data_x.init_dist = s.dda_data_y.init_dist) :
    (rayBody level s).dda_data_x = s.dda_data_x ∧
    (rayBody level s).dda_data_y.tile = s.dda_data_y.tile + s.dda_data_y.step ∧
    (rayBody level s).dda_data_y.init_dist
      = Flt.add s.dda_data_y.init_dist s.dda_data_y.delta_dist ∧
    (rayBody level s).dda_data_y.step = s.dda_data_y.step ∧
    (rayBody level s).dda_data_y.delta_dist = s.dda_data_y.delta_dist ∧
    (rayBody level s).wall_side = some WallSide.kYSide := by
  simp [rayBody, h, Flt.lt_self]

theorem tieCamera_rayInit :
    rayInit tieCamera (-1)
      = ⟨⟨2, 1, Flt.fin 1, Flt.fin (1 / 2)⟩, ⟨2, 1, Flt.fin 1, Flt.fin (1 / 2)⟩, 0, none⟩ := by
  simp [rayInit, tieCamera, Vector.add, Vector.mul, DDAData.new, truncToInt_five_halves]
  norm_num

/-- Witness of `rayBody_tie_advances_y`: the first iteration of the ray of
`tieCamera` for `plane_scalar = -1`. -/
theorem rayBody_tie_advances_y_witness :
    (rayInit tieCamera (-1)).dda_data_x.init_dist
        = (rayInit tieCamera (-1)).dda_data_y.init_dist ∧
    ((rayBody room5 (rayInit tieCamera (-1))).dda_data_x = (rayInit tieCamera (-1)).dda_data_x ∧
     (rayBody room5 (rayInit tieCamera (-1))).dda_data_y.tile
        = (rayInit tieCamera (-1)).dda_data_y.tile + (rayInit tieCamera (-1)).dda_data_y.step ∧
     (rayBody room5 (rayInit tieCamera (-1))).dda_data_y.init_dist
        = Flt.add (rayInit tieCamera (-1)).dda_data_y.init_dist
            (rayInit tieCamera (-1)).dda_data_y.delta_dist ∧
     (rayBody room5 (rayInit tieCamera (-1))).dda_data_y.step
        = (rayInit tieCamera (-1)).dda_data_y.step ∧
     (rayBody room5 (rayInit tieCamera (-1))).dda_data_y.delta_dist
        = (rayInit tieCamera (-1)).dda_data_y.delta_dist ∧
     (rayBody room5 (rayInit tieCamera (-1))).wall_side = some WallSide.kYSide) :=
  ⟨by simp [tieCamera_rayInit],
   rayBody_tie_advances_y room5 (rayInit tieCamera (-1)) (by simp [tieCamera_rayInit])⟩

/-- C1 (as stated) fails: on the first iteration of the ray of `tieCamera`
for `plane_scalar = -1` both `init_dist` values are the finite `1/2`, and the
body leaves the X tile at 2 (it is not moved by the X step 1), leaves the X
`init_dist` at `1/2`, and records `kYSide`. -/
theorem rayBody_tie_not_x :
    (rayInit tieCamera (-1)).dda_data_x.init_dist = Flt.fin (1 / 2) ∧
    (rayInit tieCamera (-1)).dda_data_y.init_dist = Flt.fin (1 / 2) ∧
    (rayInit tieCamera (-1)).dda_data_x.tile = 2 ∧
    (rayInit tieCamera (-1)).dda_data_x.step = 1 ∧
    (rayBody room5 (rayInit tieCamera (-1))).dda_data_x.tile = 2 ∧
    (rayBody room5 (rayInit tieCamera (-1))).dda_data_x.init_dist = Flt.fin (1 / 2) ∧
    (rayBody room5 (rayInit tieCamera (-1))).wall_side ≠ some WallSide.kXSide := by
  simp [tieCamera_rayInit, rayBody, Flt.lt]

/-! ## C2: the ray straight ahead in the 5 x 5 room -/

theorem room5_camera :
    Camera.new (⟨Real.sin, Real.cos, Real.tan⟩ : Libm ℝ) (5 / 2) (5 / 2) 0 (Real.pi / 2)
      = ⟨1, ⟨5 / 2, 5 / 2⟩, ⟨1, 0⟩, ⟨0, -1⟩, AccelState.kNone, AccelDirection.kNone, 0, 0⟩ := by
  have h : Real.pi / 2 / 2 = Real.pi / 4 := by ring
  simp [Camera.new, Camera.UpdatePlane, Vector.mul, h]

theorem room5_rayInit :
    rayInit (Camera.new (⟨Real.sin, Real.cos, Real.tan⟩ : Libm ℝ) (5 / 2) (5 / 2) 0
        (Real.pi / 2)) 0
      = ⟨⟨2, 1, Flt.fin 1, Flt.fin (1 / 2)⟩, ⟨2, 0, Flt.pinf, Flt.pinf⟩, 0, none⟩ := by
  rw [room5_camera]
  simp [rayInit, Vector.add, Vector.mul, DDAData.new, truncToInt_five_halves]
  norm_num

theorem rayLoop_of_wall (level : Int → Int → Int) (fuel : Nat) (s : RayState K)
    (h : s.wall_id ≠ 0) : rayLoop level fuel s = some s := by
  cases fuel <;> simp [rayLoop, h]

theorem rayLoop_succ (level : Int → Int → Int) (fuel : Nat) (s : RayState K)
    (h : s.wall_id = 0) : rayLoop level (fuel + 1) s = rayLoop level fuel (rayBody level s) := by
  simp [rayLoop, h]

theorem rayLoop_zero (level : Int → Int → Int) (s : RayState K)
    (h : s.wall_id = 0) : rayLoop level 0 s = none := by
  simp [rayLoop, h]

theorem room5_rayLoop (n : Nat) :
    rayLoop room5 (n + 2)
        (⟨⟨2, 1, Flt.fin 1, Flt.fin (1 / 2)⟩, ⟨2, 0, Flt.pinf, Flt.pinf⟩, 0, none⟩ : RayState ℝ)
      = some ⟨⟨4, 1, Flt.fin 1, Flt.fin (5 / 2)⟩, ⟨2, 0, Flt.pinf, Flt.pinf⟩, 1,
          some WallSide.kXSide⟩ := by
  rw [rayLoop_succ _ _ _ rfl]
  have h1 : rayBody room5
      (⟨⟨2, 1, Flt.fin 1, Flt.fin (1 / 2)⟩, ⟨2, 0, Flt.pinf, Flt.pinf⟩, 0, none⟩ : RayState ℝ)
      = ⟨⟨3, 1, Flt.fin 1, Flt.fin (3 / 2)⟩, ⟨2, 0, Flt.pinf, Flt.pinf⟩, 0,
          some WallSide.kXSide⟩ := by
    simp [rayBody, Flt.lt, Flt.add, room5]
    norm_num
  have h2 : rayBody room5
      (⟨⟨3, 1, Flt.fin 1, Flt.fin (3 / 2)⟩, ⟨2, 0, Flt.pinf, Flt.pinf⟩, 0,
          some WallSide.kXSide⟩ : RayState ℝ)
      = ⟨⟨4, 1, Flt.fin 1, Flt.fin (5 / 2)⟩, ⟨2, 0, Flt.pinf, Flt.pinf⟩, 1,
          some WallSide.kXSide⟩ := by
    simp [rayBody, Flt.lt, Flt.add, room5]
    norm_num
  rw [h1, rayLoop_succ _ _ _ rfl, h2, rayLoop_of_wall _ _ _ (by simp)]

/-- C2 (as amended): in the 5 x 5 room, the camera built at `(2.5, 2.5)` with
angle 0 and a field of view of 90 degrees casts, for `plane_scalar = 0`, a
ray that returns after two iterations with `wall_id = 1`, `wall_side = kXSide`
and `distance = 1.5`. -/
theorem room5_ray_straight_ahead (n : Nat) :
    Camera.CalculateRay room5
        (Camera.new (⟨Real.sin, Real.cos, Real.tan⟩ : Libm ℝ) (5 / 2) (5 / 2) 0 (Real.pi / 2))
        0 (n + 2)
      = some ⟨Flt.fin (3 / 2), 1, WallSide.kXSide⟩ := by
  rw [Camera.CalculateRay, room5_rayInit, room5_rayLoop]
  simp [rayResult, Flt.sub]
  norm_num

/-- C2 (as stated) fails: whatever the fuel, the ray straight ahead in the
5 x 5 room does not return a finite distance within `1/2` of `2.0`. -/
theorem room5_ray_distance_not_two :
    ¬ ∃ (fuel : Nat) (r : RayData ℝ) (d : ℝ),
        Camera.CalculateRay room5
          (Camera.new (⟨Real.sin, Real.cos, Real.tan⟩ : Libm ℝ) (5 / 2) (5 / 2) 0 (Real.pi / 2))
          0 fuel = some r ∧
        r.wall_id = 1 ∧ r.wall_side = WallSide.kXSide ∧
        r.distance = Flt.fin d ∧ |d - 2| < 1 / 2 := by
  rintro ⟨fuel, r, d, hr, -, -, hd, hlt⟩
  match fuel, hr with
  | 0, hr =>
    rw [Camera.CalculateRay, room5_rayInit, rayLoop_zero _ _ rfl] at hr
    simp at hr
  | 1, hr =>
    rw [Camera.CalculateRay, room5_rayInit, rayLoop_succ _ _ _ rfl] at hr
    have h1 : rayBody room5
        (⟨⟨2, 1, Flt.fin 1, Flt.fin (1 / 2)⟩, ⟨2, 0, Flt.pinf, Flt.pinf⟩, 0, none⟩ : RayState ℝ)
        = ⟨⟨3, 1, Flt.fin 1, Flt.fin (3 / 2)⟩, ⟨2, 0, Flt.pinf, Flt.pinf⟩, 0,
            some WallSide.kXSide⟩ := by
      simp [rayBody, Flt.lt, Flt.add, room5]
      norm_num
    rw [h1, rayLoop_zero _ _ rfl] at hr
    simp at hr
  | n + 2, hr =>
    rw [Camera.CalculateRay, room5_rayInit, room5_rayLoop] at hr
    simp only [Option.some_bind, rayResult, Flt.sub, Option.some.injEq] at hr
    subst hr
    simp only [Flt.fin.injEq] at hd
    subst hd
    rw [abs_lt] at hlt
    norm_num at hlt

/-! ## C3: termination of the stepping loop on a closed map -/

theorem DDAData.new_shaped (position ray_direction : K) :
    (DDAData.new position ray_direction).Shaped := by
  unfold DDAData.new DDAData.Shaped
  by_cases h0 : ray_direction = 0
  · simp [h0]
  · by_cases h1 : ray_direction > 0
    · right; simp [h0, h1]
    · right; simp [h0, h1]

theorem DDAData.new_step_eq_zero (position ray_direction : K) :
    (DDAData.new position ray_direction).step = 0 ↔ ray_direction = 0 := by
  unfold DDAData.new
  by_cases h0 : ray_direction = 0
  · simp [h0]
  · by_cases h1 : ray_direction > 0 <;> simp [h0, h1]

theorem DDAData.new_tile (position ray_direction : K) :
    (DDAData.new position ray_direction).tile = truncToInt position := by
  unfold DDAData.new
  by_cases h0 : ray_direction = 0
  · simp [h0]
  · by_cases h1 : ray_direction > 0 <;> simp [h0, h1]

theorem DDAData.advance_shaped {d : DDAData K} (h : d.Shaped) : d.advance.Shaped := by
  rcases h with ⟨h0, hi, hd⟩ | ⟨hs, a, b, hi, hd⟩
  · left; simp [DDAData.advance, h0, hi, hd, Flt.add]
  · right; exact ⟨hs, a + b, b, by simp [DDAData.advance, hi, hd, Flt.add], by
      simp [DDAData.advance, hd]⟩

theorem rayBody_cases (level : Int → Int → Int) (s : RayState K) :
    (Flt.lt s.dda_data_x.init_dist s.dda_data_y.init_dist = true ∧
      rayBody level s = ⟨s.dda_data_x.advance, s.dda_data_y,
        level s.dda_data_x.advance.tile s.dda_data_y.tile, some WallSide.kXSide⟩) ∨
    (Flt.lt s.dda_data_x.init_dist s.dda_data_y.init_dist = false ∧
      rayBody level s = ⟨s.dda_data_x, s.dda_data_y.advance,
        level s.dda_data_x.tile s.dda_data_y.advance.tile, some WallSide.kYSide⟩) := by
  by_cases h : Flt.lt s.dda_data_x.init_dist s.dda_data_y.init_dist = true
  · left; simp [rayBody, h, DDAData.advance]
  · right; simp [rayBody, h, DDAData.advance]

theorem selected_x_moves {s : RayState K} (hx : s.dda_data_x.Shaped)
    (h : Flt.lt s.dda_data_x.init_dist s.dda_data_y.init_dist = true) :
    s.dda_data_x.step = 1 ∨ s.dda_data_x.step = -1 := by
  rcases hx with ⟨-, hi, -⟩ | ⟨hs, -⟩
  · rw [hi] at h; simp [Flt.lt] at h
  · exact hs

theorem selected_y_moves {s : RayState K} (hx : s.dda_data_x.Shaped) (hy : s.dda_data_y.Shaped)
    (hne : ¬ (s.dda_data_x.step = 0 ∧ s.dda_data_y.step = 0))
    (h : Flt.lt s.dda_data_x.init_dist s.dda_data_y.init_dist = false) :
    s.dda_data_y.step = 1 ∨ s.dda_data_y.step = -1 := by
  rcases hy with ⟨hy0, hyi, -⟩ | ⟨hs, -⟩
  · rcases hx with ⟨hx0, -, -⟩ | ⟨-, a, b, hxi, -⟩
    · exact absurd ⟨hx0, hy0⟩ hne
    · rw [hxi, hyi] at h; simp [Flt.lt] at h
  · exact hs

theorem DDAData.togo_nonneg {n : Int} {d : DDAData K} (h0 : 0 < d.tile) (h1 : d.tile < n - 1) :
    0 ≤ d.togo n := by
  unfold DDAData.togo
  split_ifs <;> omega

theorem DDAData.togo_advance {n : Int} {d : DDAData K} (hs : d.step = 1 ∨ d.step = -1) :
    d.advance.togo n = d.togo n - 1 := by
  rcases hs with hs | hs <;> simp [DDAData.togo, DDAData.advance, hs] <;> omega

theorem DDAData.advance_tile {d : DDAData K} (hs : d.step = 1 ∨ d.step = -1) :
    d.advance.tile = d.tile + 1 ∨ d.advance.tile = d.tile - 1 := by
  rcases hs with hs | hs
  · left; simp [DDAData.advance, hs]
  · right; simp [DDAData.advance, hs]; omega

theorem DDAData.advance_step (d : DDAData K) : d.advance.step = d.step := rfl

theorem interior_of_empty_x {level : Int → Int → Int} {W H x y x1 : Int}
    (hc : ClosedMap level W H) (hi : InteriorTile W H x y) (hx : x1 = x + 1 ∨ x1 = x - 1)
    (he : level x1 y = 0) : InteriorTile W H x1 y := by
  obtain ⟨h1, h2, h3, h4⟩ := hi
  have hb : ¬ (x1 = 0 ∨ x1 = W - 1 ∨ y = 0 ∨ y = H - 1) := fun hb =>
    hc x1 y (by omega) (by omega) (by omega) (by omega) hb he
  refine ⟨?_, ?_, h3, h4⟩ <;> omega

theorem interior_of_empty_y {level : Int → Int → Int} {W H x y y1 : Int}
    (hc : ClosedMap level W H) (hi : InteriorTile W H x y) (hy : y1 = y + 1 ∨ y1 = y - 1)
    (he : level x y1 = 0) : InteriorTile W H x y1 := by
  obtain ⟨h1, h2, h3, h4⟩ := hi
  have hb : ¬ (x = 0 ∨ x = W - 1 ∨ y1 = 0 ∨ y1 = H - 1) := fun hb =>
    hc x y1 (by omega) (by omega) (by omega) (by omega) hb he
  refine ⟨h1, h2, ?_, ?_⟩ <;> omega

/-- From a state inside a closed map the loop stops within as many iterations
as there are tiles left to walk on the two axes. -/
theorem rayLoop_stops {level : Int → Int → Int} {W H : Int} (hc : ClosedMap level W H) :
    ∀ (n : Nat) (s : RayState K), s.dda_data_x.Shaped → s.dda_data_y.Shaped →
      ¬ (s.dda_data_x.step = 0 ∧ s.dda_data_y.step = 0) → s.wall_id = 0 →
      InteriorTile W H s.dda_data_x.tile s.dda_data_y.tile →
      s.dda_data_x.togo W + s.dda_data_y.togo H ≤ n →
      ∃ (fuel : Nat) (s1 : RayState K), fuel ≤ n ∧ rayLoop level fuel s = some s1 ∧
        s1.wall_id ≠ 0 ∧ s1.wall_side ≠ none := by
  intro n
  induction n with
  | zero =>
    intro s hx hy hne hw hi hn
    exfalso
    have hxn := DDAData.togo_nonneg (d := s.dda_data_x) hi.1 hi.2.1
    have hyn := DDAData.togo_nonneg (d := s.dda_data_y) hi.2.2.1 hi.2.2.2
    rcases rayBody_cases level s with ⟨hlt, -⟩ | ⟨hlt, -⟩
    · have hs := selected_x_moves hx hlt
      have := DDAData.togo_advance (n := W) hs
      have hi1 : 0 ≤ s.dda_data_x.advance.togo W := by
        rcases hs with hs | hs <;> simp [DDAData.togo, DDAData.advance, hs] <;>
          have := hi.1 <;> have := hi.2.1 <;> omega
      simp only [Nat.cast_zero] at hn
      omega
    · have hs := selected_y_moves hx hy hne hlt
      have := DDAData.togo_advance (n := H) hs
      have hi1 : 0 ≤ s.dda_data_y.advance.togo H := by
        rcases hs with hs | hs <;> simp [DDAData.togo, DDAData.advance, hs] <;>
          have := hi.2.2.1 <;> have := hi.2.2.2 <;> omega
      simp only [Nat.cast_zero] at hn
      omega
  | succ n ih =>
    intro s hx hy hne hw hi hn
    have hxn := DDAData.togo_nonneg (d := s.dda_data_x) hi.1 hi.2.1
    have hyn := DDAData.togo_nonneg (d := s.dda_data_y) hi.2.2.1 hi.2.2.2
    rcases rayBody_cases level s with ⟨hlt, hb⟩ | ⟨hlt, hb⟩
    · have hs := selected_x_moves hx hlt
      by_cases he : level s.dda_data_x.advance.tile s.dda_data_y.tile = 0
      · have hi1 := interior_of_empty_x hc hi (DDAData.advance_tile hs) he
        have ht := DDAData.togo_advance (n := W) hs
        obtain ⟨fuel, s1, hf, hl, h1, h2⟩ := ih (rayBody level s)
          (by rw [hb]; exact DDAData.advance_shaped hx) (by rw [hb]; exact hy)
          (by rw [hb]; rintro ⟨h, -⟩; rw [DDAData.advance_step] at h; omega)
          (by rw [hb]; exact he) (by rw [hb]; exact hi1)
          (by rw [hb]; push_cast at hn ⊢; simp only [ht]; omega)
        exact ⟨fuel + 1, s1, by omega, by rw [rayLoop_succ _ _ _ hw]; exact hl, h1, h2⟩
      · refine ⟨1, rayBody level s, by omega, ?_, ?_, ?_⟩
        · rw [rayLoop_succ _ _ _ hw]
          exact rayLoop_of_wall _ _ _ (by rw [hb]; exact he)
        · rw [hb]; exact he
        · rw [hb]; simp
    · have hs := selected_y_moves hx hy hne hlt
      by_cases he : level s.dda_data_x.tile s.dda_data_y.advance.tile = 0
      · have hi1 := interior_of_empty_y hc hi (DDAData.advance_tile hs) he
        have ht := DDAData.togo_advance (n := H) hs
        obtain ⟨fuel, s1, hf, hl, h1, h2⟩ := ih (rayBody level s)
          (by rw [hb]; exact hx) (by rw [hb]; exact DDAData.advance_shaped hy)
          (by rw [hb]; rintro ⟨-, h⟩; rw [DDAData.advance_step] at h; omega)
          (by rw [hb]; exact he) (by rw [hb]; exact hi1)
          (by rw [hb]; push_cast at hn ⊢; simp only [ht]; omega)
        exact ⟨fuel + 1, s1, by omega, by rw [rayLoop_succ _ _ _ hw]; exact hl, h1, h2⟩
      · refine ⟨1, rayBody level s, by omega, ?_, ?_, ?_⟩
        · rw [rayLoop_succ _ _ _ hw]
          exact rayLoop_of_wall _ _ _ (by rw [hb]; exact he)
        · rw [hb]; exact he
        · rw [hb]; simp

theorem rayLoop_more_fuel (level : Int → Int → Int) (k : Nat) :
    ∀ (fuel : Nat) (s s1 : RayState K), rayLoop level fuel s = some s1 →
      rayLoop level (fuel + k) s = some s1 := by
  intro fuel
  induction fuel with
  | zero =>
    intro s s1 h
    by_cases hw : s.wall_id = 0
    · rw [rayLoop_zero _ _ hw] at h; exact absurd h (by simp)
    · rw [rayLoop_of_wall _ _ _ hw] at h ⊢; exact h
  | succ n ih =>
    intro s s1 h
    by_cases hw : s.wall_id = 0
    · rw [rayLoop_succ _ _ _ hw] at h
      rw [show n + 1 + k = (n + k) + 1 by omega, rayLoop_succ _ _ _ hw]
      exact ih _ _ h
    · rw [rayLoop_of_wall _ _ _ hw] at h ⊢; exact h

theorem ray_direction_ne_zero (cam : Camera K) (plane_scalar : K)
    (hunit : cam.direction.x ^ 2 + cam.direction.y ^ 2 = 1)
    (hperp : cam.plane.x * cam.direction.x + cam.plane.y * cam.direction.y = 0) :
    ¬ ((cam.direction.add (cam.plane.mul plane_scalar)).x = 0 ∧
       (cam.direction.add (cam.plane.mul plane_scalar)).y = 0) := by
  rintro ⟨h1, h2⟩
  simp only [Vector.add, Vector.mul] at h1 h2
  have h : (1 : K) = 0 := by
    linear_combination (-1) * hunit + cam.direction.x * h1 + cam.direction.y * h2
      - plane_scalar * hperp
  exact one_ne_zero h

theorem rayResult_of_side {s : RayState K} (h : s.wall_side ≠ none) :
    ∃ r : RayData K, rayResult s = some r ∧ r.wall_id = s.wall_id := by
  unfold rayResult
  rcases hs : s.wall_side with _ | side
  · exact absurd hs h
  · cases side <;> simp

theorem room5_closed : ClosedMap room5 5 5 := by
  intro x y hx0 hx hy0 hy hb
  unfold room5
  rw [if_pos ⟨hx0, hx, hy0, hy⟩, if_pos (by omega)]
  decide

/-- C3: on a `W` x `H` grid whose border cells are all nonzero, for a camera
whose position lies in an interior cell, with a unit-length direction and a
plane perpendicular to it, and for every `plane_scalar`, the loop of
`CalculateRay` terminates: some amount of fuel, at most `W + H`, is enough
for `CalculateRay` to return a result, whose `wall_id` is nonzero, and every
larger amount of fuel gives the same result. (That the camera's own cell is
empty is not needed.) -/
theorem CalculateRay_terminates (level : Int → Int → Int) (W H : Int) (cam : Camera K)
    (plane_scalar : K) (hc : ClosedMap level W H)
    (hi : InteriorTile W H (truncToInt cam.position.x) (truncToInt cam.position.y))
    (hunit : cam.direction.x ^ 2 + cam.direction.y ^ 2 = 1)
    (hperp : cam.plane.x * cam.direction.x + cam.plane.y * cam.direction.y = 0) :
    ∃ (fuel : Nat) (r : RayData K), (fuel : Int) ≤ W + H ∧ r.wall_id ≠ 0 ∧
      ∀ k : Nat, cam.CalculateRay level plane_scalar (fuel + k) = some r := by
  have hne := ray_direction_ne_zero cam plane_scalar hunit hperp
  have hx0 := hi.1
  have hx1 := hi.2.1
  have hy0 := hi.2.2.1
  have hy1 := hi.2.2.2
  have htx : (rayInit cam plane_scalar).dda_data_x.togo W ≤ W - 2 := by
    simp only [rayInit, DDAData.togo, DDAData.new_tile]
    split_ifs <;> omega
  have hty : (rayInit cam plane_scalar).dda_data_y.togo H ≤ H - 2 := by
    simp only [rayInit, DDAData.togo, DDAData.new_tile]
    split_ifs <;> omega
  obtain ⟨fuel, s1, hf, hl, hw, hs⟩ := rayLoop_stops hc (W + H).toNat (rayInit cam plane_scalar)
    (DDAData.new_shaped _ _) (DDAData.new_shaped _ _)
    (by
      simp only [rayInit, DDAData.new_step_eq_zero]
      exact hne)
    rfl
    (by simpa only [rayInit, DDAData.new_tile] using hi)
    (by
      rw [Int.toNat_of_nonneg (by omega)]
      omega)
  obtain ⟨r, hr, hid⟩ := rayResult_of_side hs
  refine ⟨fuel, r, ?_, ?_, ?_⟩
  · have := Int.toNat_of_nonneg (show 0 ≤ W + H by omega)
    omega
  · rw [hid]; exact hw
  · intro k
    rw [Camera.CalculateRay, rayLoop_more_fuel level k fuel _ _ hl]
    exact hr

/-- Witness of `CalculateRay_terminates`: the diagonal ray of `tieCamera` in
the 5 x 5 room. -/
theorem CalculateRay_terminates_witness :
    ClosedMap room5 5 5 ∧
    InteriorTile 5 5 (truncToInt tieCamera.position.x) (truncToInt tieCamera.position.y) ∧
    tieCamera.direction.x ^ 2 + tieCamera.direction.y ^ 2 = 1 ∧
    tieCamera.plane.x * tieCamera.direction.x + tieCamera.plane.y * tieCamera.direction.y = 0 ∧
    ∃ (fuel : Nat) (r : RayData ℚ), (fuel : Int) ≤ 5 + 5 ∧ r.wall_id ≠ 0 ∧
      ∀ k : Nat, tieCamera.CalculateRay room5 (-1) (fuel + k) = some r :=
  ⟨room5_closed,
   by simp [tieCamera, truncToInt_five_halves, InteriorTile],
   by simp [tieCamera],
   by simp [tieCamera],
   CalculateRay_terminates room5 5 5 tieCamera (-1) room5_closed
     (by simp [tieCamera, truncToInt_five_halves, InteriorTile])
     (by simp [tieCamera]) (by simp [tieCamera])⟩

/-! ## C4, C5: the acceleration ramp overshoots the maximum speed -/

theorem SetMovementSpeed_accel_forward_below (cam : Camera K) (frame_time : K)
    (hs : cam.accel_state = AccelState.kAccelerate)
    (hd : cam.accel_direction = AccelDirection.kForward)
    (h : cam.movement_speed < 5 / 2) :
    (cam.SetMovementSpeed frame_time).movement_speed
        = cam.movement_speed + 5 / 2 * frame_time ∧
    (cam.SetMovementSpeed frame_time).accel_state = AccelState.kAccelerate ∧
    (cam.SetMovementSpeed frame_time).accel_direction = AccelDirection.kForward := by
  simp [Camera.SetMovementSpeed, hs, hd, AccelDirection.toInt, kMaxMovementSpeed, h]

theorem SetMovementSpeed_accel_forward_reached (cam : Camera K) (frame_time : K)
    (hs : cam.accel_state = AccelState.kAccelerate)
    (hd : cam.accel_direction = AccelDirection.kForward)
    (h : 5 / 2 ≤ cam.movement_speed) :
    (cam.SetMovementSpeed frame_time).movement_speed = 5 / 2 ∧
    (cam.SetMovementSpeed frame_time).accel_state = AccelState.kNone := by
  simp [Camera.SetMovementSpeed, hs, hd, AccelDirection.toInt, kMaxMovementSpeed,
    not_lt.mpr h, Camera.SetAcceleration]

theorem ramp_below (cam : Camera K) (frame_time : K) (n : Nat) (v : K)
    (hv : (Camera.ramp cam frame_time n).movement_speed = v)
    (hs : (Camera.ramp cam frame_time n).accel_state = AccelState.kAccelerate)
    (hd : (Camera.ramp cam frame_time n).accel_direction = AccelDirection.kForward)
    (h : v < 5 / 2) :
    (Camera.ramp cam frame_time (n + 1)).movement_speed = v + 5 / 2 * frame_time ∧
    (Camera.ramp cam frame_time (n + 1)).accel_state = AccelState.kAccelerate ∧
    (Camera.ramp cam frame_time (n + 1)).accel_direction = AccelDirection.kForward := by
  have h1 := SetMovementSpeed_accel_forward_below _ frame_time hs hd (by rw [hv]; exact h)
  rw [hv] at h1
  exact h1

theorem ramp_reached (cam : Camera K) (frame_time : K) (n : Nat) (v : K)
    (hv : (Camera.ramp cam frame_time n).movement_speed = v)
    (hs : (Camera.ramp cam frame_time n).accel_state = AccelState.kAccelerate)
    (hd : (Camera.ramp cam frame_time n).accel_direction = AccelDirection.kForward)
    (h : 5 / 2 ≤ v) :
    (Camera.ramp cam frame_time (n + 1)).movement_speed = 5 / 2 ∧
    (Camera.ramp cam frame_time (n + 1)).accel_state = AccelState.kNone :=
  SetMovementSpeed_accel_forward_reached _ frame_time hs hd (by rw [hv]; exact h)

/-- The speeds of the ramp with a frame time of 0.3 seconds. -/
theorem ramp_three_tenths (cam : Camera K) (h0 : cam.movement_speed = 0)
    (hs : cam.accel_state = AccelState.kAccelerate)
    (hd : cam.accel_direction = AccelDirection.kForward) :
    (Camera.ramp cam (3 / 10) 1).movement_speed = 3 / 4 ∧
    (Camera.ramp cam (3 / 10) 2).movement_speed = 3 / 2 ∧
    (Camera.ramp cam (3 / 10) 3).movement_speed = 9 / 4 ∧
    (Camera.ramp cam (3 / 10) 4).movement_speed = 3 ∧
    (Camera.ramp cam (3 / 10) 4).accel_state = AccelState.kAccelerate ∧
    (Camera.ramp cam (3 / 10) 5).movement_speed = 5 / 2 ∧
    (Camera.ramp cam (3 / 10) 5).accel_state = AccelState.kNone := by
  obtain ⟨v1, s1, d1⟩ := ramp_below cam (3 / 10) 0 0 h0 hs hd (by norm_num)
  have w1 : (Camera.ramp cam (3 / 10) 1).movement_speed = 3 / 4 := by rw [v1]; norm_num
  obtain ⟨v2, s2, d2⟩ := ramp_below cam (3 / 10) 1 _ w1 s1 d1 (by norm_num)
  have w2 : (Camera.ramp cam (3 / 10) 2).movement_speed = 3 / 2 := by rw [v2]; norm_num
  obtain ⟨v3, s3, d3⟩ := ramp_below cam (3 / 10) 2 _ w2 s2 d2 (by norm_num)
  have w3 : (Camera.ramp cam (3 / 10) 3).movement_speed = 9 / 4 := by rw [v3]; norm_num
  obtain ⟨v4, s4, d4⟩ := ramp_below cam (3 / 10) 3 _ w3 s3 d3 (by norm_num)
  have w4 : (Camera.ramp cam (3 / 10) 4).movement_speed = 3 := by rw [v4]; norm_num
  obtain ⟨v5, s5⟩ := ramp_reached cam (3 / 10) 4 _ w4 s4 d4 (by norm_num)
  exact ⟨w1, w2, w3, w4, s4, v5, s5⟩

/-- C4 (evaluation at the failing input): from a freshly constructed camera,
`SetAcceleration(kAccelerate, kForward)` followed by four calls of
`SetMovementSpeed(0.3)` leaves `movement_speed = 3`, above
`kMaxMovementSpeed = 2.5`; a single call `SetMovementSpeed(2)` leaves it
at 5. -/
theorem movement_speed_overshoots (m : Libm K) (x y angle fov : K) :
    (Camera.ramp ((Camera.new m x y angle fov).SetAcceleration AccelState.kAccelerate
        AccelDirection.kForward) (3 / 10) 4).movement_speed = 3 ∧
    (((Camera.new m x y angle fov).SetAcceleration AccelState.kAccelerate
        AccelDirection.kForward).SetMovementSpeed 2).movement_speed = 5 ∧
    (kMaxMovementSpeed : K) < 3 := by
  refine ⟨?_, ?_, ?_⟩
  · exact (ramp_three_tenths _ rfl rfl rfl).2.2.2.1
  · rw [(SetMovementSpeed_accel_forward_below _ 2 rfl rfl (by
      show (0 : K) < 5 / 2
      norm_num)).1]
    show (0 : K) + 5 / 2 * 2 = 5
    norm_num
  · simp only [kMaxMovementSpeed]
    norm_num

/-- C5 (evaluation at the failing input): with `movement_speed = 0` and the
acceleration set to accelerate forward, the calls of `SetMovementSpeed(0.3)`
give the speeds 0.75, 1.5, 2.25, 3 and then 2.5: the fifth call is the one on
which `accel_state` becomes `kNone`, the speed there is exactly
`kMaxMovementSpeed`, and it is lower than the speed after the fourth call. -/
theorem ramp_decreases_at_last_call (cam : Camera K) (h0 : cam.movement_speed = 0)
    (hs : cam.accel_state = AccelState.kAccelerate)
    (hd : cam.accel_direction = AccelDirection.kForward) :
    (Camera.ramp cam (3 / 10) 1).movement_speed = 3 / 4 ∧
    (Camera.ramp cam (3 / 10) 2).movement_speed = 3 / 2 ∧
    (Camera.ramp cam (3 / 10) 3).movement_speed = 9 / 4 ∧
    (Camera.ramp cam (3 / 10) 4).movement_speed = 3 ∧
    (Camera.ramp cam (3 / 10) 4).accel_state = AccelState.kAccelerate ∧
    (Camera.ramp cam (3 / 10) 5).movement_speed = kMaxMovementSpeed ∧
    (Camera.ramp cam (3 / 10) 5).accel_state = AccelState.kNone ∧
    (Camera.ramp cam (3 / 10) 5).movement_speed < (Camera.ramp cam (3 / 10) 4).movement_speed := by
  obtain ⟨w1, w2, w3, w4, s4, w5, s5⟩ := ramp_three_tenths cam h0 hs hd
  refine ⟨w1, w2, w3, w4, s4, ?_, s5, ?_⟩
  · rw [w5, kMaxMovementSpeed]
  · rw [w5, w4]
    norm_num

/-- Witness of `ramp_decreases_at_last_call`: `tieCamera` told to accelerate
forward. -/
theorem ramp_decreases_at_last_call_witness :
    (tieCamera.SetAcceleration AccelState.kAccelerate
        AccelDirection.kForward).movement_speed = 0 ∧
    (tieCamera.SetAcceleration AccelState.kAccelerate
        AccelDirection.kForward).accel_state = AccelState.kAccelerate ∧
    (tieCamera.SetAcceleration AccelState.kAccelerate
        AccelDirection.kForward).accel_direction = AccelDirection.kForward ∧
    (Camera.ramp (tieCamera.SetAcceleration AccelState.kAccelerate AccelDirection.kForward)
        (3 / 10) 4).movement_speed = 3 ∧
    (Camera.ramp (tieCamera.SetAcceleration AccelState.kAccelerate AccelDirection.kForward)
        (3 / 10) 5).movement_speed = kMaxMovementSpeed ∧
    (Camera.ramp (tieCamera.SetAcceleration AccelState.kAccelerate AccelDirection.kForward)
        (3 / 10) 5).accel_state = AccelState.kNone :=
  have h := ramp_decreases_at_last_call
    (tieCamera.SetAcceleration AccelState.kAccelerate AccelDirection.kForward) rfl rfl rfl
  ⟨rfl, rfl, rfl, h.2.2.2.1, h.2.2.2.2.2.1, h.2.2.2.2.2.2.1⟩

/-! ## C6, C7: `Vector::Rotate` -/

theorem Rotate_eq (m : Libm K) (v : Vector K) (angle : K) :
    v.Rotate m angle
      = ⟨v.x * m.cos angle + v.y * m.sin angle, -(v.x * m.sin angle) + v.y * m.cos angle⟩ := by
  simp [Vector.Rotate]

/-- C6 (evaluation at the failing input): `Rotate` applies the matrix with
rows `(cos a, sin a)` and `(-sin a, cos a)`, and takes `(1, 0)` rotated by
`+pi/2` to `(0, -1)`, not to `(0, 1)`. -/
theorem Rotate_quarter_turn :
    (∀ (v : Vector ℝ) (a : ℝ),
      v.Rotate ⟨Real.sin, Real.cos, Real.tan⟩ a
        = ⟨v.x * Real.cos a + v.y * Real.sin a, -(v.x * Real.sin a) + v.y * Real.cos a⟩) ∧
    (⟨1, 0⟩ : Vector ℝ).Rotate ⟨Real.sin, Real.cos, Real.tan⟩ (Real.pi / 2) = ⟨0, -1⟩ ∧
    (⟨1, 0⟩ : Vector ℝ).Rotate ⟨Real.sin, Real.cos, Real.tan⟩ (Real.pi / 2) ≠ ⟨0, 1⟩ := by
  refine ⟨fun v a => Rotate_eq _ v a, ?_, ?_⟩
  · simp [Rotate_eq]
  · simp [Rotate_eq]
    norm_num

/-- C7: over the reals, `Rotate(t)` followed by `Rotate(-t)` gives back the
vector it started from. -/
theorem Rotate_then_Rotate_neg (v : Vector ℝ) (t : ℝ) :
    (v.Rotate ⟨Real.sin, Real.cos, Real.tan⟩ t).Rotate ⟨Real.sin, Real.cos, Real.tan⟩ (-t)
      = v := by
  obtain ⟨x, y⟩ := v
  simp only [Rotate_eq, Real.sin_neg, Real.cos_neg, Vector.mk.injEq]
  constructor
  · linear_combination x * Real.sin_sq_add_cos_sq t
  · linear_combination y * Real.sin_sq_add_cos_sq t

/-! ## C8: the tile of a stepper -/

theorem ceil_eq_floor_iff (p : K) : ⌈p⌉ = ⌊p⌋ ↔ ((⌊p⌋ : Int) : K) = p := by
  constructor
  · intro h
    apply le_antisymm (Int.floor_le p)
    have := Int.le_ceil p
    rw [h] at this
    exact this
  · intro h
    rw [← h, Int.ceil_intCast, Int.floor_intCast]

theorem ceil_eq_floor_add_one {p : K} (h : ((⌊p⌋ : Int) : K) ≠ p) : ⌈p⌉ = ⌊p⌋ + 1 := by
  rw [Int.ceil_eq_iff]
  have hlt : ((⌊p⌋ : Int) : K) < p := lt_of_le_of_ne (Int.floor_le p) h
  have hle := (Int.lt_floor_add_one p).le
  push_cast
  constructor
  · linarith
  · exact hle

/-- C8 (as amended): the constructor of the stepper sets `tile` to the
truncation of `position` toward zero. This is `floor(position)` exactly when
`position` is non-negative or a whole number; for every other position, that
is, negative and not whole, it is `ceil(position)`, which is
`floor(position) + 1`. -/
theorem DDAData_tile_floor_or_ceil (position ray_direction : K) :
    ((DDAData.new position ray_direction).tile = ⌊position⌋ ↔
      (0 ≤ position ∨ ((⌊position⌋ : Int) : K) = position)) ∧
    (¬ (0 ≤ position ∨ ((⌊position⌋ : Int) : K) = position) →
      (DDAData.new position ray_direction).tile = ⌈position⌉ ∧
      (DDAData.new position ray_direction).tile = ⌊position⌋ + 1) := by
  rw [DDAData.new_tile]
  constructor
  · by_cases h : 0 ≤ position
    · simp [truncToInt, h]
    · simp only [truncToInt, h, if_false, false_or]
      exact ceil_eq_floor_iff position
  · intro h
    have h0 : ¬ 0 ≤ position := fun h0 => h (Or.inl h0)
    have hw : ((⌊position⌋ : Int) : K) ≠ position := fun hw => h (Or.inr hw)
    rw [truncToInt_of_neg (not_le.mp h0)]
    exact ⟨rfl, ceil_eq_floor_add_one hw⟩

/-- C8 (as stated) fails: at `position = -1/2` the stepper's tile is 0 while
`floor(-1/2) = -1`. -/
theorem DDAData_tile_not_floor :
    (DDAData.new (-1 / 2 : ℚ) 1).tile = 0 ∧ ⌊(-1 / 2 : ℚ)⌋ = -1 ∧
    (DDAData.new (-1 / 2 : ℚ) 1).tile ≠ ⌊(-1 / 2 : ℚ)⌋ := by
  have hc : ⌈(-1 / 2 : ℚ)⌉ = 0 := by
    rw [Int.ceil_eq_iff]; constructor <;> norm_num
  have hf : ⌊(-1 / 2 : ℚ)⌋ = -1 := by
    rw [Int.floor_eq_iff]; constructor <;> norm_num
  have ht : (DDAData.new (-1 / 2 : ℚ) 1).tile = 0 := by
    rw [DDAData.new_tile, truncToInt_of_neg (by norm_num), hc]
  refine ⟨ht, hf, ?_⟩
  rw [ht, hf]
  decide

/-! ## C9: an axis with a zero ray direction is never advanced -/

theorem DDAData.new_zero (position : K) :
    DDAData.new position (0 : K) = ⟨truncToInt position, 0, Flt.pinf, Flt.pinf⟩ := by
  simp [DDAData.new]

theorem DDAData.new_moves {position ray_direction : K} (h : ray_direction ≠ 0) :
    (DDAData.new position ray_direction).step = 1 ∨
    (DDAData.new position ray_direction).step = -1 := by
  unfold DDAData.new
  by_cases h1 : ray_direction > 0 <;> simp [h, h1]

theorem idleX_body (level : Int → Int → Int) {s : RayState K} (h : IdleX s) :
    (rayBody level s).dda_data_x = s.dda_data_x ∧
    (rayBody level s).dda_data_y = s.dda_data_y.advance := by
  obtain ⟨-, hi, -, -, -⟩ := h
  rcases rayBody_cases level s with ⟨hlt, -⟩ | ⟨-, hb⟩
  · rw [hi] at hlt; simp [Flt.lt] at hlt
  · rw [hb]; exact ⟨rfl, rfl⟩

theorem idleY_body (level : Int → Int → Int) {s : RayState K} (h : IdleY s) :
    (rayBody level s).dda_data_y = s.dda_data_y ∧
    (rayBody level s).dda_data_x = s.dda_data_x.advance := by
  obtain ⟨-, hi, -, hx, hs⟩ := h
  rcases rayBody_cases level s with ⟨-, hb⟩ | ⟨hlt, -⟩
  · rw [hb]; exact ⟨rfl, rfl⟩
  · rcases hx with ⟨h0, -, -⟩ | ⟨-, a, b, ha, -⟩
    · omega
    · rw [hi, ha] at hlt; simp [Flt.lt] at hlt

theorem idleX_iterate (level : Int → Int → Int) {s : RayState K} (h : IdleX s) (n : Nat) :
    IdleX ((rayBody level)^[n] s) ∧
    ((rayBody level)^[n] s).dda_data_x.tile = s.dda_data_x.tile := by
  induction n with
  | zero => exact ⟨h, rfl⟩
  | succ n ih =>
    rw [Function.iterate_succ_apply']
    obtain ⟨hn, ht⟩ := ih
    obtain ⟨ex, ey⟩ := idleX_body level hn
    obtain ⟨h0, hi, hd, hy, hs⟩ := hn
    refine ⟨⟨?_, ?_, ?_, ?_, ?_⟩, ?_⟩
    · rw [ex]; exact h0
    · rw [ex]; exact hi
    · rw [ex]; exact hd
    · rw [ey]; exact DDAData.advance_shaped hy
    · rw [ey]; exact hs
    · rw [ex]; exact ht

theorem idleY_iterate (level : Int → Int → Int) {s : RayState K} (h : IdleY s) (n : Nat) :
    IdleY ((rayBody level)^[n] s) ∧
    ((rayBody level)^[n] s).dda_data_y.tile = s.dda_data_y.tile := by
  induction n with
  | zero => exact ⟨h, rfl⟩
  | succ n ih =>
    rw [Function.iterate_succ_apply']
    obtain ⟨hn, ht⟩ := ih
    obtain ⟨ey, ex⟩ := idleY_body level hn
    obtain ⟨h0, hi, hd, hx, hs⟩ := hn
    refine ⟨⟨?_, ?_, ?_, ?_, ?_⟩, ?_⟩
    · rw [ey]; exact h0
    · rw [ey]; exact hi
    · rw [ey]; exact hd
    · rw [ex]; exact DDAData.advance_shaped hx
    · rw [ex]; exact hs
    · rw [ey]; exact ht

/-- C9: a stepper built with `ray_direction = 0` has `step = 0` and
`init_dist = delta_dist = +infinity`; and when exactly one component of the
ray direction of `CalculateRay` is zero, then on every iteration of the loop
body (the `n`-th, for every `n`) the tile of the zero axis stays where the
constructor put it and the tile of the other axis moves by its step, which is
1 or -1. -/
theorem zero_axis_never_advanced (level : Int → Int → Int) (cam : Camera K) (plane_scalar : K)
    (h : ((cam.direction.add (cam.plane.mul plane_scalar)).x = 0 ∧
          (cam.direction.add (cam.plane.mul plane_scalar)).y ≠ 0) ∨
         ((cam.direction.add (cam.plane.mul plane_scalar)).x ≠ 0 ∧
          (cam.direction.add (cam.plane.mul plane_scalar)).y = 0)) :
    (∀ position : K,
      (DDAData.new position (0 : K)).step = 0 ∧
      (DDAData.new position (0 : K)).init_dist = Flt.pinf ∧
      (DDAData.new position (0 : K)).delta_dist = Flt.pinf) ∧
    ∀ n : Nat,
      ((cam.direction.add (cam.plane.mul plane_scalar)).x = 0 →
        (rayBody level ((rayBody level)^[n] (rayInit cam plane_scalar))).dda_data_x.tile
          = truncToInt cam.position.x ∧
        ((rayBody level)^[n] (rayInit cam plane_scalar)).dda_data_x.tile
          = truncToInt cam.position.x ∧
        (rayBody level ((rayBody level)^[n] (rayInit cam plane_scalar))).dda_data_y.tile
          = ((rayBody level)^[n] (rayInit cam plane_scalar)).dda_data_y.tile
            + ((rayBody level)^[n] (rayInit cam plane_scalar)).dda_data_y.step ∧
        (((rayBody level)^[n] (rayInit cam plane_scalar)).dda_data_y.step = 1 ∨
         ((rayBody level)^[n] (rayInit cam plane_scalar)).dda_data_y.step = -1)) ∧
      ((cam.direction.add (cam.plane.mul plane_scalar)).y = 0 →
        (rayBody level ((rayBody level)^[n] (rayInit cam plane_scalar))).dda_data_y.tile
          = truncToInt cam.position.y ∧
        ((rayBody level)^[n] (rayInit cam plane_scalar)).dda_data_y.tile
          = truncToInt cam.position.y ∧
        (rayBody level ((rayBody level)^[n] (rayInit cam plane_scalar))).dda_data_x.tile
          = ((rayBody level)^[n] (rayInit cam plane_scalar)).dda_data_x.tile
            + ((rayBody level)^[n] (rayInit cam plane_scalar)).dda_data_x.step ∧
        (((rayBody level)^[n] (rayInit cam plane_scalar)).dda_data_x.step = 1 ∨
         ((rayBody level)^[n] (rayInit cam plane_scalar)).dda_data_x.step = -1)) := by
  refine ⟨fun position => by simp [DDAData.new_zero], fun n => ⟨fun hx => ?_, fun hy => ?_⟩⟩
  · have hy : (cam.direction.add (cam.plane.mul plane_scalar)).y ≠ 0 := by
      rcases h with h | h
      · exact h.2
      · exact absurd hx h.1
    have h0 : IdleX (rayInit cam plane_scalar) := by
      refine ⟨?_, ?_, ?_, DDAData.new_shaped _ _, DDAData.new_moves hy⟩ <;>
        simp [rayInit, hx, DDAData.new_zero]
    obtain ⟨hn, ht⟩ := idleX_iterate level h0 n
    obtain ⟨ex, ey⟩ := idleX_body level hn
    have ht0 : (rayInit cam plane_scalar).dda_data_x.tile = truncToInt cam.position.x :=
      DDAData.new_tile _ _
    refine ⟨?_, ?_, ?_, hn.2.2.2.2⟩
    · rw [ex, ht, ht0]
    · rw [ht, ht0]
    · rw [ey]; rfl
  · have hx : (cam.direction.add (cam.plane.mul plane_scalar)).x ≠ 0 := by
      rcases h with h | h
      · exact absurd hy h.2
      · exact h.1
    have h0 : IdleY (rayInit cam plane_scalar) := by
      refine ⟨?_, ?_, ?_, DDAData.new_shaped _ _, DDAData.new_moves hx⟩ <;>
        simp [rayInit, hy, DDAData.new_zero]
    obtain ⟨hn, ht⟩ := idleY_iterate level h0 n
    obtain ⟨ey, ex⟩ := idleY_body level hn
    have ht0 : (rayInit cam plane_scalar).dda_data_y.tile = truncToInt cam.position.y :=
      DDAData.new_tile _ _
    refine ⟨?_, ?_, ?_, hn.2.2.2.2⟩
    · rw [ey, ht, ht0]
    · rw [ht, ht0]
    · rw [ex]; rfl

/-- Witness of `zero_axis_never_advanced`: the ray straight ahead of
`tieCamera`, whose direction is `(1, 0)`. -/
theorem zero_axis_never_advanced_witness :
    (((tieCamera.direction.add (tieCamera.plane.mul 0)).x = 0 ∧
      (tieCamera.direction.add (tieCamera.plane.mul 0)).y ≠ 0) ∨
     ((tieCamera.direction.add (tieCamera.plane.mul 0)).x ≠ 0 ∧
      (tieCamera.direction.add (tieCamera.plane.mul 0)).y = 0)) ∧
    (rayBody room5 ((rayBody room5)^[1] (rayInit tieCamera 0))).dda_data_y.tile
      = truncToInt tieCamera.position.y ∧
    (rayBody room5 ((rayBody room5)^[1] (rayInit tieCamera 0))).dda_data_x.tile
      = ((rayBody room5)^[1] (rayInit tieCamera 0)).dda_data_x.tile
        + ((rayBody room5)^[1] (rayInit tieCamera 0)).dda_data_x.step :=
  have h : ((tieCamera.direction.add (tieCamera.plane.mul 0)).x = 0 ∧
      (tieCamera.direction.add (tieCamera.plane.mul 0)).y ≠ 0) ∨
     ((tieCamera.direction.add (tieCamera.plane.mul 0)).x ≠ 0 ∧
      (tieCamera.direction.add (tieCamera.plane.mul 0)).y = 0) :=
    Or.inr (by simp [tieCamera, Vector.add, Vector.mul])
  have hy : (tieCamera.direction.add (tieCamera.plane.mul 0)).y = 0 := by
    simp [tieCamera, Vector.add, Vector.mul]
  have hc := ((zero_axis_never_advanced room5 tieCamera 0 h).2 1).2 hy
  ⟨h, hc.1, hc.2.2.1⟩

/-! ## C10: a move along X into a wall -/

theorem HandleRotation_position (m : Libm K) (cam : Camera K) (frame_time : K) :
    (Camera.HandleRotation m cam frame_time).position = cam.position := by
  unfold Camera.HandleRotation
  split_ifs <;> simp [Camera.UpdatePlane]

/-- A move along X toward a wall, in terms of the candidate coordinate: for a
camera whose `position.y` is non-negative and whose `direction.y` is 0, if
the candidate new x is non-negative and the value of the grid at
`(floor(new_x), floor(y))` is nonzero, then `HandleMotion` leaves `position.x`
unchanged; and in every case `HandleMotion` leaves `position.y` unchanged. -/
theorem HandleMotion_blocked_x (m : Libm K) (level : Int → Int → Int) (cam : Camera K)
    (frame_time : K) (hy : 0 ≤ cam.position.y) (hdy : cam.direction.y = 0) :
    (0 ≤ cam.position.x + cam.direction.x * (cam.movement_speed * frame_time) →
      level ⌊cam.position.x + cam.direction.x * (cam.movement_speed * frame_time)⌋
          ⌊cam.position.y⌋ ≠ 0 →
      (cam.HandleMotion m level frame_time).position.x = cam.position.x) ∧
    (cam.HandleMotion m level frame_time).position.y = cam.position.y := by
  unfold Camera.HandleMotion
  rw [HandleRotation_position]
  unfold Camera.HandleMove
  by_cases hms : cam.movement_speed = 0
  · simp [hms]
  · simp only [ne_eq, hms, not_false_eq_true, if_true, Vector.add, Vector.mul, hdy, zero_mul,
      add_zero]
    refine ⟨fun hnx hw => ?_, ?_⟩
    · rw [truncToInt_of_nonneg hnx, truncToInt_of_nonneg hy, if_neg hw]
    · split_ifs <;> rfl

theorem tileAt_some {level : Int → Int → Int} {W H x y v : Int}
    (h : tileAt level W H x y = some v) :
    0 ≤ x ∧ x < W ∧ 0 ≤ y ∧ y < H ∧ v = level x y := by
  unfold tileAt at h
  split_ifs at h with hb
  · obtain ⟨h1, h2, h3, h4⟩ := hb
    simp only [Option.some.injEq] at h
    exact ⟨h1, h2, h3, h4, h.symm⟩

/-- C10: the level grid is an array of `W` x `H` cells, so that its cells are
the index pairs of `[0, W) x [0, H)`. For a camera whose `position.y` is
non-negative and whose `direction.y` is 0, and every frame time: if the
candidate new x lies in a wall tile, that is, `(floor(new_x), floor(y))` is a
cell of the grid and holds a nonzero value, then `HandleMotion` leaves
`position.x` unchanged; and in every case `HandleMotion` leaves `position.y`
unchanged. (Neither a non-negative `position.x`, nor an empty tile under the
camera, nor a nonzero `movement_speed` is needed.) -/
theorem HandleMotion_wall_blocks_x (m : Libm K) (level : Int → Int → Int) (W H : Int)
    (cam : Camera K) (frame_time : K) (hy : 0 ≤ cam.position.y)
    (hdy : cam.direction.y = 0) :
    ((∃ v : Int,
        tileAt level W H
          ⌊cam.position.x + cam.direction.x * (cam.movement_speed * frame_time)⌋
          ⌊cam.position.y⌋ = some v ∧ v ≠ 0) →
      (cam.HandleMotion m level frame_time).position.x = cam.position.x) ∧
    (cam.HandleMotion m level frame_time).position.y = cam.position.y := by
  obtain ⟨h1, h2⟩ := HandleMotion_blocked_x m level cam frame_time hy hdy
  refine ⟨?_, h2⟩
  rintro ⟨v, hv, hne⟩
  obtain ⟨hx0, -, -, -, hl⟩ := tileAt_some hv
  exact h1 (Int.floor_nonneg.mp hx0) (by rw [← hl]; exact hne)

/-- Witness of `HandleMotion_wall_blocks_x`: in the 5 x 5 room, `fastCamera`
at `(3.5, 2.5)` moves for a fifth of a second toward the wall tile `(4, 2)`
and stays where it is. -/
theorem HandleMotion_wall_blocks_x_witness :
    (0 : ℚ) ≤ fastCamera.position.y ∧ fastCamera.direction.y = 0 ∧
    tileAt room5 5 5 ⌊(7 / 2 + 1 * (5 / 2 * (1 / 5)) : ℚ)⌋ ⌊(5 / 2 : ℚ)⌋ = some 1 ∧
    (fastCamera.HandleMotion ⟨id, id, id⟩ room5 (1 / 5)).position.x = 7 / 2 ∧
    (fastCamera.HandleMotion ⟨id, id, id⟩ room5 (1 / 5)).position.y = 5 / 2 :=
  have hy : (0 : ℚ) ≤ fastCamera.position.y := by
    show (0 : ℚ) ≤ 5 / 2
    norm_num
  have h := HandleMotion_wall_blocks_x (⟨id, id, id⟩ : Libm ℚ) room5 5 5 fastCamera (1 / 5)
    hy rfl
  have hfx : ⌊(7 / 2 + 1 * (5 / 2 * (1 / 5)) : ℚ)⌋ = 4 := by
    rw [Int.floor_eq_iff]; constructor <;> norm_num
  have hfy : ⌊(5 / 2 : ℚ)⌋ = 2 := by
    rw [Int.floor_eq_iff]; constructor <;> norm_num
  have ht : tileAt room5 5 5 ⌊(7 / 2 + 1 * (5 / 2 * (1 / 5)) : ℚ)⌋ ⌊(5 / 2 : ℚ)⌋ = some 1 := by
    rw [hfx, hfy]
    decide
  ⟨hy, rfl, ht, h.1 ⟨1, ht, by decide⟩, h.2⟩

/-! ## C11: the two axes of a move are resolved independently -/

/-- What `HandleMotion` does to the position, in terms of truncations. -/
theorem HandleMotion_position (m : Libm K) (level : Int → Int → Int) (cam : Camera K)
    (frame_time : K) (hms : cam.movement_speed ≠ 0) :
    (cam.HandleMotion m level frame_time).position
      = ⟨if level (truncToInt (cam.position.x + cam.direction.x * (cam.movement_speed * frame_time)))
            (truncToInt cam.position.y) = 0
          then cam.position.x + cam.direction.x * (cam.movement_speed * frame_time)
          else cam.position.x,
         if level (truncToInt cam.position.x)
            (truncToInt (cam.position.y + cam.direction.y * (cam.movement_speed * frame_time))) = 0
          then cam.position.y + cam.direction.y * (cam.movement_speed * frame_time)
          else cam.position.y⟩ := by
  unfold Camera.HandleMotion
  rw [HandleRotation_position]
  simp [Camera.HandleMove, hms, Vector.add, Vector.mul]

theorem HandleMotion_position_still (m : Libm K) (level : Int → Int → Int) (cam : Camera K)
    (frame_time : K) (hms : cam.movement_speed = 0) :
    (cam.HandleMotion m level frame_time).position = cam.position := by
  unfold Camera.HandleMotion
  rw [HandleRotation_position]
  simp [Camera.HandleMove, hms]

/-- C11: for a camera whose current and candidate coordinates are
non-negative, `HandleMotion` sets `position.x` to the candidate
`new_x = position.x + direction.x * movement_speed * frame_time` when the grid
cell `(floor(new_x), floor(old_y))` is 0 and leaves it at `old_x` otherwise,
and sets `position.y` to the candidate `new_y` when the grid cell
`(floor(old_x), floor(new_y))` is 0 and leaves it at `old_y` otherwise; the Y
test reads the x value from before the call. (A nonzero `movement_speed` is
not needed: with speed 0 the candidate is the old position.) -/
theorem HandleMotion_per_axis (m : Libm K) (level : Int → Int → Int) (cam : Camera K)
    (frame_time : K) (hx : 0 ≤ cam.position.x) (hy : 0 ≤ cam.position.y)
    (hnx : 0 ≤ cam.position.x + cam.direction.x * cam.movement_speed * frame_time)
    (hny : 0 ≤ cam.position.y + cam.direction.y * cam.movement_speed * frame_time) :
    (cam.HandleMotion m level frame_time).position.x
      = (if level ⌊cam.position.x + cam.direction.x * cam.movement_speed * frame_time⌋
            ⌊cam.position.y⌋ = 0
          then cam.position.x + cam.direction.x * cam.movement_speed * frame_time
          else cam.position.x) ∧
    (cam.HandleMotion m level frame_time).position.y
      = (if level ⌊cam.position.x⌋
            ⌊cam.position.y + cam.direction.y * cam.movement_speed * frame_time⌋ = 0
          then cam.position.y + cam.direction.y * cam.movement_speed * frame_time
          else cam.position.y) := by
  by_cases hms : cam.movement_speed = 0
  · rw [HandleMotion_position_still m level cam frame_time hms, hms]
    simp
  · have ex : cam.direction.x * cam.movement_speed * frame_time
        = cam.direction.x * (cam.movement_speed * frame_time) := by ring
    have ey : cam.direction.y * cam.movement_speed * frame_time
        = cam.direction.y * (cam.movement_speed * frame_time) := by ring
    rw [ex] at hnx ⊢
    rw [ey] at hny ⊢
    rw [HandleMotion_position m level cam frame_time hms, truncToInt_of_nonneg hx,
      truncToInt_of_nonneg hy, truncToInt_of_nonneg hnx, truncToInt_of_nonneg hny]
    exact ⟨rfl, rfl⟩

/-- Witness of `HandleMotion_per_axis`: `advancingCamera` moving for one
second toward the wall of `rightWall`: the X move is refused, the Y move (by
0) is made. -/
theorem HandleMotion_per_axis_witness :
    (0 : ℚ) ≤ advancingCamera.position.x ∧ (0 : ℚ) ≤ advancingCamera.position.y ∧
    (0 : ℚ) ≤ advancingCamera.position.x
      + advancingCamera.direction.x * advancingCamera.movement_speed * 1 ∧
    (0 : ℚ) ≤ advancingCamera.position.y
      + advancingCamera.direction.y * advancingCamera.movement_speed * 1 ∧
    (advancingCamera.HandleMotion ⟨id, id, id⟩ rightWall 1).position.x
      = (if rightWall ⌊(1 / 2 + 1 * 1 * 1 : ℚ)⌋ ⌊(1 / 2 : ℚ)⌋ = 0 then 1 / 2 + 1 * 1 * 1
          else 1 / 2) ∧
    (advancingCamera.HandleMotion ⟨id, id, id⟩ rightWall 1).position.y
      = (if rightWall ⌊(1 / 2 : ℚ)⌋ ⌊(1 / 2 + 0 * 1 * 1 : ℚ)⌋ = 0 then 1 / 2 + 0 * 1 * 1
          else 1 / 2) :=
  have hx : (0 : ℚ) ≤ advancingCamera.position.x := by
    show (0 : ℚ) ≤ 1 / 2
    norm_num
  have hy : (0 : ℚ) ≤ advancingCamera.position.y := by
    show (0 : ℚ) ≤ 1 / 2
    norm_num
  have hnx : (0 : ℚ) ≤ advancingCamera.position.x
      + advancingCamera.direction.x * advancingCamera.movement_speed * 1 := by
    show (0 : ℚ) ≤ 1 / 2 + 1 * 1 * 1
    norm_num
  have hny : (0 : ℚ) ≤ advancingCamera.position.y
      + advancingCamera.direction.y * advancingCamera.movement_speed * 1 := by
    show (0 : ℚ) ≤ 1 / 2 + 0 * 1 * 1
    norm_num
  ⟨hx, hy, hnx, hny,
    HandleMotion_per_axis (⟨id, id, id⟩ : Libm ℚ) rightWall advancingCamera 1 hx hy hnx hny⟩

/-! ## C14: the distances of a stepper -/

/-- C14: for `position >= 0` and a nonzero `ray_direction = d`, the stepper
has the tile `floor(position)`, the finite `delta_dist = 1 / |d|`, and a
finite `init_dist` with `position + init_dist * d = tile + 1` when `d > 0`
and `= tile` when `d < 0`, and `0 <= init_dist <= delta_dist`. -/
theorem DDAData_distances (position d : K) (hp : 0 ≤ position) (hd : d ≠ 0) :
    (DDAData.new position d).tile = ⌊position⌋ ∧
    (DDAData.new position d).delta_dist = Flt.fin (1 / |d|) ∧
    ∃ init : K, (DDAData.new position d).init_dist = Flt.fin init ∧
      (0 < d → position + init * d = ((DDAData.new position d).tile : K) + 1) ∧
      (d < 0 → position + init * d = ((DDAData.new position d).tile : K)) ∧
      0 ≤ init ∧ init ≤ 1 / |d| := by
  have ht : (DDAData.new position d).tile = ⌊position⌋ := by
    rw [DDAData.new_tile, truncToInt_of_nonneg hp]
  have hfl := Int.floor_le position
  have hlt := Int.lt_floor_add_one position
  refine ⟨ht, ?_, ?_⟩
  · unfold DDAData.new
    by_cases h1 : d > 0 <;> simp [hd, h1]
  · rw [ht]
    rcases lt_or_gt_of_ne hd with hneg | hpos
    · have habs : |d| = -d := abs_of_neg hneg
      have hnd : ¬ d > 0 := not_lt.mpr hneg.le
      refine ⟨(position - (⌊position⌋ : K)) * (1 / |d|), ?_, ?_, ?_, ?_, ?_⟩
      · simp [DDAData.new, hd, hnd, truncToInt_of_nonneg hp]
      · intro h; exact absurd h hnd
      · intro _
        rw [habs]
        have h1 : 1 / -d * d = -1 := by field_simp
        linear_combination (position - (⌊position⌋ : K)) * h1
      · apply mul_nonneg (by linarith)
        rw [habs]
        exact (one_div_pos.mpr (by linarith)).le
      · have hinv : 0 ≤ 1 / |d| := by
          rw [habs]
          exact (one_div_pos.mpr (by linarith)).le
        calc (position - (⌊position⌋ : K)) * (1 / |d|) ≤ 1 * (1 / |d|) :=
              mul_le_mul_of_nonneg_right (by linarith) hinv
          _ = 1 / |d| := one_mul _
    · have habs : |d| = d := abs_of_pos hpos
      refine ⟨((⌊position⌋ : K) + 1 - position) * (1 / |d|), ?_, ?_, ?_, ?_, ?_⟩
      · simp [DDAData.new, hd, hpos, truncToInt_of_nonneg hp]
      · intro _
        rw [habs]
        have h1 : 1 / d * d = 1 := by field_simp
        linear_combination ((⌊position⌋ : K) + 1 - position) * h1
      · intro h; exact absurd h (not_lt.mpr hpos.le)
      · apply mul_nonneg (by linarith)
        rw [habs]
        exact (one_div_pos.mpr hpos).le
      · have hinv : 0 ≤ 1 / |d| := by
          rw [habs]
          exact (one_div_pos.mpr hpos).le
        calc ((⌊position⌋ : K) + 1 - position) * (1 / |d|) ≤ 1 * (1 / |d|) :=
              mul_le_mul_of_nonneg_right (by linarith) hinv
          _ = 1 / |d| := one_mul _

/-- Witness of `DDAData_distances`: the stepper at `position = 5/2` for the
ray direction `-2`. -/
theorem DDAData_distances_witness :
    (0 : ℚ) ≤ 5 / 2 ∧ (-2 : ℚ) ≠ 0 ∧
    (DDAData.new (5 / 2 : ℚ) (-2)).tile = ⌊(5 / 2 : ℚ)⌋ ∧
    (DDAData.new (5 / 2 : ℚ) (-2)).delta_dist = Flt.fin (1 / |(-2 : ℚ)|) :=
  have h := DDAData_distances (5 / 2 : ℚ) (-2) (by norm_num) (by norm_num)
  ⟨by norm_num, by norm_num, h.1, h.2.1⟩

/-! ## Reachable camera states: what each operation leaves alone -/

theorem SetMovementSpeed_others (cam : Camera K) (frame_time : K) :
    (cam.SetMovementSpeed frame_time).position = cam.position ∧
    (cam.SetMovementSpeed frame_time).direction = cam.direction ∧
    (cam.SetMovementSpeed frame_time).plane = cam.plane ∧
    (cam.SetMovementSpeed frame_time).plane_length = cam.plane_length ∧
    (cam.SetMovementSpeed frame_time).rotation_speed = cam.rotation_speed := by
  rcases hs : cam.accel_state with _ | _ | _ <;>
    simp only [Camera.SetMovementSpeed, hs] <;> (try split_ifs) <;>
    simp [Camera.SetAcceleration]

theorem HandleMove_others (level : Int → Int → Int) (cam : Camera K) (frame_time : K) :
    (cam.HandleMove level frame_time).direction = cam.direction ∧
    (cam.HandleMove level frame_time).plane = cam.plane ∧
    (cam.HandleMove level frame_time).plane_length = cam.plane_length ∧
    (cam.HandleMove level frame_time).rotation_speed = cam.rotation_speed ∧
    (cam.HandleMove level frame_time).movement_speed = cam.movement_speed ∧
    (cam.HandleMove level frame_time).accel_state = cam.accel_state ∧
    (cam.HandleMove level frame_time).accel_direction = cam.accel_direction := by
  unfold Camera.HandleMove
  split_ifs <;> simp

theorem HandleRotation_others (m : Libm K) (cam : Camera K) (frame_time : K) :
    (cam.HandleRotation m frame_time).plane_length = cam.plane_length ∧
    (cam.HandleRotation m frame_time).rotation_speed = cam.rotation_speed ∧
    (cam.HandleRotation m frame_time).movement_speed = cam.movement_speed ∧
    (cam.HandleRotation m frame_time).accel_state = cam.accel_state ∧
    (cam.HandleRotation m frame_time).accel_direction = cam.accel_direction := by
  unfold Camera.HandleRotation
  split_ifs <;> simp [Camera.UpdatePlane]

theorem HandleMotion_others (m : Libm K) (level : Int → Int → Int) (cam : Camera K)
    (frame_time : K) :
    (cam.HandleMotion m level frame_time).plane_length = cam.plane_length ∧
    (cam.HandleMotion m level frame_time).rotation_speed = cam.rotation_speed ∧
    (cam.HandleMotion m level frame_time).movement_speed = cam.movement_speed ∧
    (cam.HandleMotion m level frame_time).accel_state = cam.accel_state ∧
    (cam.HandleMotion m level frame_time).accel_direction = cam.accel_direction := by
  unfold Camera.HandleMotion
  obtain ⟨h1, h2, h3, h4, h5⟩ := HandleRotation_others m (cam.HandleMove level frame_time)
    frame_time
  obtain ⟨-, -, g1, g2, g3, g4, g5⟩ := HandleMove_others level cam frame_time
  exact ⟨h1.trans g1, h2.trans g2, h3.trans g3, h4.trans g4, h5.trans g5⟩

theorem UpdatePlane_planeOk (cam : Camera K) : cam.UpdatePlane.PlaneOk := by
  simp [Camera.PlaneOk, Camera.UpdatePlane]

theorem HandleRotation_planeOk (m : Libm K) (cam : Camera K) (frame_time : K)
    (h : cam.PlaneOk) : (cam.HandleRotation m frame_time).PlaneOk := by
  unfold Camera.HandleRotation
  split_ifs
  · exact UpdatePlane_planeOk _
  · exact h

theorem HandleMotion_planeOk (m : Libm K) (level : Int → Int → Int) (cam : Camera K)
    (frame_time : K) (h : cam.PlaneOk) : (cam.HandleMotion m level frame_time).PlaneOk := by
  unfold Camera.HandleMotion
  apply HandleRotation_planeOk
  obtain ⟨h1, h2, h3, -⟩ := HandleMove_others level cam frame_time
  unfold Camera.PlaneOk at h ⊢
  rw [h1, h2, h3]
  exact h

theorem SetMovementSpeed_planeOk (cam : Camera K) (frame_time : K) (h : cam.PlaneOk) :
    (cam.SetMovementSpeed frame_time).PlaneOk := by
  obtain ⟨-, h1, h2, h3, -⟩ := SetMovementSpeed_others cam frame_time
  unfold Camera.PlaneOk at h ⊢
  rw [h1, h2, h3]
  exact h

theorem Reachable.planeOk {m : Libm K} {level : Int → Int → Int} {cam : Camera K}
    (h : Reachable m level cam) : cam.PlaneOk := by
  induction h with
  | construct x y angle fov => exact UpdatePlane_planeOk _
  | updatePlane _ _ => exact UpdatePlane_planeOk _
  | setAcceleration s d _ ih => exact ih
  | setMovementSpeed ft _ ih => exact SetMovementSpeed_planeOk _ ft ih
  | setRotationSpeed d _ ih => exact ih
  | handleMotion ft _ ih => exact HandleMotion_planeOk m level _ ft ih

theorem Rotate_norm (m : Libm K) (hm : m.Lawful) (v : Vector K) (angle : K) :
    (v.Rotate m angle).x ^ 2 + (v.Rotate m angle).y ^ 2 = v.x ^ 2 + v.y ^ 2 := by
  rw [Rotate_eq]
  simp only []
  linear_combination (v.x ^ 2 + v.y ^ 2) * hm.2.2 angle

theorem HandleMotion_direction_norm (m : Libm K) (hm : m.Lawful) (level : Int → Int → Int)
    (cam : Camera K) (frame_time : K) :
    (cam.HandleMotion m level frame_time).direction.x ^ 2
        + (cam.HandleMotion m level frame_time).direction.y ^ 2
      = cam.direction.x ^ 2 + cam.direction.y ^ 2 := by
  unfold Camera.HandleMotion Camera.HandleRotation
  have hd := (HandleMove_others level cam frame_time).1
  split_ifs
  · simp only [Camera.UpdatePlane]
    rw [Rotate_norm m hm, hd]
  · rw [hd]

theorem Reachable.direction_unit {m : Libm K} (hm : m.Lawful) {level : Int → Int → Int}
    {cam : Camera K} (h : Reachable m level cam) :
    cam.direction.x ^ 2 + cam.direction.y ^ 2 = 1 := by
  induction h with
  | construct x y angle fov =>
    simp only [Camera.new, Camera.UpdatePlane]
    linear_combination hm.2.2 angle
  | updatePlane _ ih => exact ih
  | setAcceleration s d _ ih => exact ih
  | setMovementSpeed ft _ ih =>
    rw [(SetMovementSpeed_others _ ft).2.1]
    exact ih
  | setRotationSpeed d _ ih => exact ih
  | handleMotion ft _ ih =>
    rw [HandleMotion_direction_norm m hm]
    exact ih

theorem real_libm_lawful : (⟨Real.sin, Real.cos, Real.tan⟩ : Libm ℝ).Lawful :=
  ⟨Real.sin_zero, Real.cos_zero, fun a => Real.sin_sq_add_cos_sq a⟩

/-! ## C12: the plane after `UpdatePlane` -/

theorem UpdatePlane_plane (cam : Camera K) :
    cam.UpdatePlane.plane = ⟨cam.direction.y * cam.plane_length,
      -cam.direction.x * cam.plane_length⟩ ∧
    cam.UpdatePlane.direction = cam.direction ∧
    cam.UpdatePlane.plane_length = cam.plane_length := by
  simp [Camera.UpdatePlane, Vector.mul]

theorem tan_three_quarter_pi : Real.tan (3 * Real.pi / 2 / 2) = -1 := by
  have e : 3 * Real.pi / 2 / 2 = -(Real.pi / 4) + Real.pi := by ring
  rw [e, Real.tan_periodic (-(Real.pi / 4)), Real.tan_neg, Real.tan_pi_div_four]

/-- C12 (as amended): for a unit-length direction and every `plane_length`,
after `UpdatePlane` the plane satisfies `plane . direction = 0` and
`|plane| = |plane_length|`, the absolute value of `plane_length`; so
`|plane| = plane_length` whenever `plane_length >= 0`. -/
theorem UpdatePlane_perp_length (cam : Camera ℝ)
    (hunit : cam.direction.x ^ 2 + cam.direction.y ^ 2 = 1) :
    cam.UpdatePlane.plane.x * cam.UpdatePlane.direction.x
        + cam.UpdatePlane.plane.y * cam.UpdatePlane.direction.y = 0 ∧
    Real.sqrt (cam.UpdatePlane.plane.x ^ 2 + cam.UpdatePlane.plane.y ^ 2)
      = |cam.plane_length| ∧
    (0 ≤ cam.plane_length →
      Real.sqrt (cam.UpdatePlane.plane.x ^ 2 + cam.UpdatePlane.plane.y ^ 2)
        = cam.plane_length) := by
  obtain ⟨hp, hd, -⟩ := UpdatePlane_plane cam
  have hs : Real.sqrt (cam.UpdatePlane.plane.x ^ 2 + cam.UpdatePlane.plane.y ^ 2)
      = |cam.plane_length| := by
    rw [hp]
    simp only []
    have e : (cam.direction.y * cam.plane_length) ^ 2 + (-cam.direction.x * cam.plane_length) ^ 2
        = cam.plane_length ^ 2 := by
      linear_combination cam.plane_length ^ 2 * hunit
    rw [e, Real.sqrt_sq_eq_abs]
  refine ⟨?_, hs, fun h0 => ?_⟩
  · rw [hp, hd]
    simp only []
    ring
  · rw [hs, abs_of_nonneg h0]

/-- Witness of `UpdatePlane_perp_length`: the direction `(1, 0)` with
`plane_length = 1`. -/
theorem UpdatePlane_perp_length_witness :
    (1 : ℝ) ^ 2 + (0 : ℝ) ^ 2 = 1 ∧
    Real.sqrt
      ((Camera.UpdatePlane (⟨1, ⟨5 / 2, 5 / 2⟩, ⟨1, 0⟩, ⟨0, 0⟩, AccelState.kNone,
          AccelDirection.kNone, 0, 0⟩ : Camera ℝ)).plane.x ^ 2
        + (Camera.UpdatePlane (⟨1, ⟨5 / 2, 5 / 2⟩, ⟨1, 0⟩, ⟨0, 0⟩, AccelState.kNone,
          AccelDirection.kNone, 0, 0⟩ : Camera ℝ)).plane.y ^ 2) = 1 :=
  have hunit : (1 : ℝ) ^ 2 + (0 : ℝ) ^ 2 = 1 := by norm_num
  ⟨hunit,
    (UpdatePlane_perp_length (⟨1, ⟨5 / 2, 5 / 2⟩, ⟨1, 0⟩, ⟨0, 0⟩, AccelState.kNone,
      AccelDirection.kNone, 0, 0⟩ : Camera ℝ) hunit).2.2 (by norm_num)⟩

/-- C12 (as stated) fails: the camera built with angle 0 and a field of view
of 270 degrees has the unit direction `(1, 0)` and `plane_length = tan(135
deg) = -1`; after `UpdatePlane` its plane is `(0, 1)`, of length 1, which is
not `plane_length`. -/
theorem UpdatePlane_length_not_plane_length :
    (Camera.new (⟨Real.sin, Real.cos, Real.tan⟩ : Libm ℝ) 0 0 0
        (3 * Real.pi / 2)).direction = ⟨1, 0⟩ ∧
    (Camera.new (⟨Real.sin, Real.cos, Real.tan⟩ : Libm ℝ) 0 0 0
        (3 * Real.pi / 2)).plane_length = -1 ∧
    (Camera.new (⟨Real.sin, Real.cos, Real.tan⟩ : Libm ℝ) 0 0 0
        (3 * Real.pi / 2)).UpdatePlane.plane = ⟨0, 1⟩ ∧
    Real.sqrt ((0 : ℝ) ^ 2 + (1 : ℝ) ^ 2) = 1 ∧
    Real.sqrt
      ((Camera.new (⟨Real.sin, Real.cos, Real.tan⟩ : Libm ℝ) 0 0 0
          (3 * Real.pi / 2)).UpdatePlane.plane.x ^ 2
        + (Camera.new (⟨Real.sin, Real.cos, Real.tan⟩ : Libm ℝ) 0 0 0
          (3 * Real.pi / 2)).UpdatePlane.plane.y ^ 2)
      ≠ (Camera.new (⟨Real.sin, Real.cos, Real.tan⟩ : Libm ℝ) 0 0 0
          (3 * Real.pi / 2)).plane_length := by
  have hc : Camera.new (⟨Real.sin, Real.cos, Real.tan⟩ : Libm ℝ) 0 0 0 (3 * Real.pi / 2)
      = ⟨-1, ⟨0, 0⟩, ⟨1, 0⟩, ⟨0, 1⟩, AccelState.kNone, AccelDirection.kNone, 0, 0⟩ := by
    simp [Camera.new, Camera.UpdatePlane, Vector.mul, tan_three_quarter_pi]
  have hu : Camera.UpdatePlane (⟨-1, ⟨0, 0⟩, ⟨1, 0⟩, ⟨0, 1⟩, AccelState.kNone,
      AccelDirection.kNone, 0, 0⟩ : Camera ℝ)
      = ⟨-1, ⟨0, 0⟩, ⟨1, 0⟩, ⟨0, 1⟩, AccelState.kNone, AccelDirection.kNone, 0, 0⟩ := by
    simp [Camera.UpdatePlane, Vector.mul]
  have hsq : Real.sqrt ((0 : ℝ) ^ 2 + (1 : ℝ) ^ 2) = 1 := by norm_num
  rw [hc, hu]
  refine ⟨rfl, rfl, rfl, hsq, ?_⟩
  simp only []
  rw [hsq]
  norm_num

/-! ## C15: the rotation speed -/

/-- C15: in every reachable camera state `rotation_speed` is 0,
`kMaxRotationSpeed` or `-kMaxRotationSpeed`, where `kMaxRotationSpeed = 1.5`;
and `SetRotationSpeed(d)` sets it at once to `kMaxRotationSpeed` times the
integer of `d` (0 for `kNone`, 1 for `kClockwise`, -1 for
`kCounterclockwise`), whatever it was before. -/
theorem rotation_speed_values (m : Libm K) (level : Int → Int → Int) (cam : Camera K)
    (h : Reachable m level cam) :
    (cam.rotation_speed = 0 ∨ cam.rotation_speed = kMaxRotationSpeed ∨
      cam.rotation_speed = -kMaxRotationSpeed) ∧
    (kMaxRotationSpeed : K) = 3 / 2 ∧
    (cam.SetRotationSpeed RotationDirection.kNone).rotation_speed = 0 ∧
    (cam.SetRotationSpeed RotationDirection.kClockwise).rotation_speed = kMaxRotationSpeed ∧
    (cam.SetRotationSpeed RotationDirection.kCounterclockwise).rotation_speed
      = -kMaxRotationSpeed := by
  refine ⟨?_, rfl, ?_, ?_, ?_⟩
  · induction h with
    | construct x y angle fov => left; simp [Camera.new, Camera.UpdatePlane]
    | updatePlane _ ih => exact ih
    | setAcceleration s d _ ih => exact ih
    | setMovementSpeed ft _ ih =>
      rw [(SetMovementSpeed_others _ ft).2.2.2.2]
      exact ih
    | setRotationSpeed d _ _ =>
      cases d
      · left; simp [Camera.SetRotationSpeed, RotationDirection.toInt]
      · right; left; simp [Camera.SetRotationSpeed, RotationDirection.toInt]
      · right; right; simp [Camera.SetRotationSpeed, RotationDirection.toInt]
    | handleMotion ft _ ih =>
      rw [(HandleMotion_others m level _ ft).2.1]
      exact ih
  · simp [Camera.SetRotationSpeed, RotationDirection.toInt]
  · simp [Camera.SetRotationSpeed, RotationDirection.toInt]
  · simp [Camera.SetRotationSpeed, RotationDirection.toInt]

/-- Witness of `rotation_speed_values`: a camera told to turn clockwise and
moved for a tenth of a second. -/
theorem rotation_speed_values_witness :
    Reachable (⟨id, id, id⟩ : Libm ℚ) room5
      (((Camera.new (⟨id, id, id⟩ : Libm ℚ) (5 / 2) (5 / 2) 0 1).SetRotationSpeed
        RotationDirection.kClockwise).HandleMotion ⟨id, id, id⟩ room5 (1 / 10)) ∧
    (((Camera.new (⟨id, id, id⟩ : Libm ℚ) (5 / 2) (5 / 2) 0 1).SetRotationSpeed
        RotationDirection.kClockwise).HandleMotion ⟨id, id, id⟩ room5 (1 / 10)).rotation_speed
      = 3 / 2 :=
  have hr : Reachable (⟨id, id, id⟩ : Libm ℚ) room5
      (((Camera.new (⟨id, id, id⟩ : Libm ℚ) (5 / 2) (5 / 2) 0 1).SetRotationSpeed
        RotationDirection.kClockwise).HandleMotion ⟨id, id, id⟩ room5 (1 / 10)) :=
    Reachable.handleMotion _ (Reachable.setRotationSpeed _ (Reachable.construct _ _ _ _))
  have h := rotation_speed_values _ _ _ hr
  ⟨hr, by
    rcases h.1 with h0 | h1 | h2
    · rw [(HandleMotion_others _ _ _ _).2.1] at h0
      simp [Camera.SetRotationSpeed, RotationDirection.toInt, kMaxRotationSpeed] at h0
    · rw [h1]; rfl
    · rw [(HandleMotion_others _ _ _ _).2.1] at h2
      simp [Camera.SetRotationSpeed, RotationDirection.toInt, kMaxRotationSpeed] at h2
      norm_num at h2⟩

/-! ## C19: the direction stays a unit vector and the plane follows it -/

/-- C19: in every camera state reachable from the constructor, over the
reals, the direction has length 1 and the plane is
`(direction.y, -direction.x) * plane_length`. -/
theorem direction_unit_plane_follows (level : Int → Int → Int) (cam : Camera ℝ)
    (h : Reachable (⟨Real.sin, Real.cos, Real.tan⟩ : Libm ℝ) level cam) :
    cam.direction.x ^ 2 + cam.direction.y ^ 2 = 1 ∧
    Real.sqrt (cam.direction.x ^ 2 + cam.direction.y ^ 2) = 1 ∧
    cam.plane = (⟨cam.direction.y, -cam.direction.x⟩ : Vector ℝ).mul cam.plane_length := by
  have hu := Reachable.direction_unit real_libm_lawful h
  refine ⟨hu, ?_, Reachable.planeOk h⟩
  rw [hu, Real.sqrt_one]

/-- Witness of `direction_unit_plane_follows`: the camera of the main program
after turning clockwise for a fifth of a second. -/
theorem direction_unit_plane_follows_witness :
    Reachable (⟨Real.sin, Real.cos, Real.tan⟩ : Libm ℝ) room5
      (((Camera.new (⟨Real.sin, Real.cos, Real.tan⟩ : Libm ℝ) 22 12 Real.pi
          (Real.pi / 2)).SetRotationSpeed RotationDirection.kClockwise).HandleMotion
        ⟨Real.sin, Real.cos, Real.tan⟩ room5 (1 / 5)) ∧
    (((Camera.new (⟨Real.sin, Real.cos, Real.tan⟩ : Libm ℝ) 22 12 Real.pi
          (Real.pi / 2)).SetRotationSpeed RotationDirection.kClockwise).HandleMotion
        ⟨Real.sin, Real.cos, Real.tan⟩ room5 (1 / 5)).direction.x ^ 2
      + (((Camera.new (⟨Real.sin, Real.cos, Real.tan⟩ : Libm ℝ) 22 12 Real.pi
          (Real.pi / 2)).SetRotationSpeed RotationDirection.kClockwise).HandleMotion
        ⟨Real.sin, Real.cos, Real.tan⟩ room5 (1 / 5)).direction.y ^ 2 = 1 :=
  have hr : Reachable (⟨Real.sin, Real.cos, Real.tan⟩ : Libm ℝ) room5
      (((Camera.new (⟨Real.sin, Real.cos, Real.tan⟩ : Libm ℝ) 22 12 Real.pi
          (Real.pi / 2)).SetRotationSpeed RotationDirection.kClockwise).HandleMotion
        ⟨Real.sin, Real.cos, Real.tan⟩ room5 (1 / 5)) :=
    Reachable.handleMotion _ (Reachable.setRotationSpeed _ (Reachable.construct _ _ _ _))
  ⟨hr, (direction_unit_plane_follows room5 _ hr).1⟩

/-! ## C13: a frame of zero length -/

theorem HandleMove_zero (level : Int → Int → Int) (cam : Camera K) :
    cam.HandleMove level 0 = cam := by
  obtain ⟨pl, ⟨px, py⟩, d, q, st, sd, ms, rs⟩ := cam
  unfold Camera.HandleMove
  split_ifs <;> simp [Vector.add, Vector.mul]

theorem HandleRotation_zero (m : Libm K) (hm : m.Lawful) (cam : Camera K) (h : cam.PlaneOk) :
    cam.HandleRotation m 0 = cam := by
  obtain ⟨pl, p, ⟨dx, dy⟩, q, st, sd, ms, rs⟩ := cam
  unfold Camera.PlaneOk at h
  simp only [] at h
  unfold Camera.HandleRotation
  split_ifs
  · simp [Camera.UpdatePlane, Rotate_eq, hm.1, hm.2.1, h]
  · rfl

theorem HandleMotion_zero (m : Libm K) (hm : m.Lawful) (level : Int → Int → Int)
    (cam : Camera K) (h : cam.PlaneOk) : cam.HandleMotion m level 0 = cam := by
  unfold Camera.HandleMotion
  rw [HandleMove_zero, HandleRotation_zero m hm cam h]

theorem SetMovementSpeed_zero_running (cam : Camera K)
    (h : cam.accel_state = AccelState.kNone ∨
      (cam.accel_state = AccelState.kAccelerate ∧
        cam.movement_speed * ((cam.accel_direction.toInt : Int) : K) < kMaxMovementSpeed) ∨
      (cam.accel_state = AccelState.kDeaccelerate ∧
        cam.movement_speed * ((cam.accel_direction.toInt : Int) : K) > 0)) :
    cam.SetMovementSpeed 0 = cam := by
  obtain ⟨pl, p, d, q, st, sd, ms, rs⟩ := cam
  rcases h with h | ⟨h, hlt⟩ | ⟨h, hgt⟩
  · simp only [] at h
    subst h
    rfl
  · simp only [] at h hlt
    subst h
    simp [Camera.SetMovementSpeed, hlt]
  · simp only [] at h hgt
    subst h
    simp [Camera.SetMovementSpeed, hgt]

/-- C13 (as amended): for every reachable camera state, over the reals, a
frame with `frame_time = 0` (`SetMovementSpeed(0)` then `HandleMotion(0)`)
leaves position, direction, plane and `rotation_speed` unchanged; and it
leaves the whole camera unchanged, `movement_speed`, `accel_state` and
`accel_direction` included, when the acceleration state is `kNone`, or
`kAccelerate` with `movement_speed * direction < kMaxMovementSpeed`, or
`kDeaccelerate` with `movement_speed * direction > 0`. -/
theorem zero_frame_time (level : Int → Int → Int) (cam : Camera ℝ)
    (h : Reachable (⟨Real.sin, Real.cos, Real.tan⟩ : Libm ℝ) level cam) :
    (cam.frame ⟨Real.sin, Real.cos, Real.tan⟩ level 0).position = cam.position ∧
    (cam.frame ⟨Real.sin, Real.cos, Real.tan⟩ level 0).direction = cam.direction ∧
    (cam.frame ⟨Real.sin, Real.cos, Real.tan⟩ level 0).plane = cam.plane ∧
    (cam.frame ⟨Real.sin, Real.cos, Real.tan⟩ level 0).rotation_speed = cam.rotation_speed ∧
    ((cam.accel_state = AccelState.kNone ∨
      (cam.accel_state = AccelState.kAccelerate ∧
        cam.movement_speed * ((cam.accel_direction.toInt : Int) : ℝ) < kMaxMovementSpeed) ∨
      (cam.accel_state = AccelState.kDeaccelerate ∧
        cam.movement_speed * ((cam.accel_direction.toInt : Int) : ℝ) > 0)) →
      cam.frame ⟨Real.sin, Real.cos, Real.tan⟩ level 0 = cam) := by
  have hz : cam.frame ⟨Real.sin, Real.cos, Real.tan⟩ level 0 = cam.SetMovementSpeed 0 := by
    unfold Camera.frame
    exact HandleMotion_zero _ real_libm_lawful level _
      (SetMovementSpeed_planeOk cam 0 (Reachable.planeOk h))
  obtain ⟨h1, h2, h3, -, h5⟩ := SetMovementSpeed_others cam 0
  rw [hz]
  exact ⟨h1, h2, h3, h5, fun hg => SetMovementSpeed_zero_running cam hg⟩

/-- Witness of `zero_frame_time`: the camera of C2 told to accelerate
forward, at rest. -/
theorem zero_frame_time_witness :
    Reachable (⟨Real.sin, Real.cos, Real.tan⟩ : Libm ℝ) room5
      ((Camera.new (⟨Real.sin, Real.cos, Real.tan⟩ : Libm ℝ) (5 / 2) (5 / 2) 0
        (Real.pi / 2)).SetAcceleration AccelState.kAccelerate AccelDirection.kForward) ∧
    Camera.frame ⟨Real.sin, Real.cos, Real.tan⟩ room5
        ((Camera.new (⟨Real.sin, Real.cos, Real.tan⟩ : Libm ℝ) (5 / 2) (5 / 2) 0
          (Real.pi / 2)).SetAcceleration AccelState.kAccelerate AccelDirection.kForward) 0
      = (Camera.new (⟨Real.sin, Real.cos, Real.tan⟩ : Libm ℝ) (5 / 2) (5 / 2) 0
          (Real.pi / 2)).SetAcceleration AccelState.kAccelerate AccelDirection.kForward :=
  have hr : Reachable (⟨Real.sin, Real.cos, Real.tan⟩ : Libm ℝ) room5
      ((Camera.new (⟨Real.sin, Real.cos, Real.tan⟩ : Libm ℝ) (5 / 2) (5 / 2) 0
        (Real.pi / 2)).SetAcceleration AccelState.kAccelerate AccelDirection.kForward) :=
    Reachable.setAcceleration _ _ (Reachable.construct _ _ _ _)
  ⟨hr, (zero_frame_time room5 _ hr).2.2.2.2 (Or.inr (Or.inl ⟨rfl, by
    show (0 : ℝ) * ((1 : Int) : ℝ) < 5 / 2
    norm_num⟩))⟩

/-- C13 (as stated) fails: the camera of C2 after
`SetAcceleration(kDeaccelerate, kForward)` is reachable, and a frame with
`frame_time = 0` changes its `accel_state` from `kDeaccelerate` to `kNone` and
its `accel_direction` from `kForward` to `kNone`. -/
theorem zero_frame_time_resets_acceleration :
    Reachable (⟨Real.sin, Real.cos, Real.tan⟩ : Libm ℝ) room5
      ((Camera.new (⟨Real.sin, Real.cos, Real.tan⟩ : Libm ℝ) (5 / 2) (5 / 2) 0
        (Real.pi / 2)).SetAcceleration AccelState.kDeaccelerate AccelDirection.kForward) ∧
    ((Camera.new (⟨Real.sin, Real.cos, Real.tan⟩ : Libm ℝ) (5 / 2) (5 / 2) 0
        (Real.pi / 2)).SetAcceleration AccelState.kDeaccelerate
          AccelDirection.kForward).accel_state = AccelState.kDeaccelerate ∧
    (Camera.frame ⟨Real.sin, Real.cos, Real.tan⟩ room5
        ((Camera.new (⟨Real.sin, Real.cos, Real.tan⟩ : Libm ℝ) (5 / 2) (5 / 2) 0
          (Real.pi / 2)).SetAcceleration AccelState.kDeaccelerate AccelDirection.kForward)
        0).accel_state = AccelState.kNone ∧
    (Camera.frame ⟨Real.sin, Real.cos, Real.tan⟩ room5
        ((Camera.new (⟨Real.sin, Real.cos, Real.tan⟩ : Libm ℝ) (5 / 2) (5 / 2) 0
          (Real.pi / 2)).SetAcceleration AccelState.kDeaccelerate AccelDirection.kForward)
        0).accel_direction = AccelDirection.kNone := by
  refine ⟨Reachable.setAcceleration _ _ (Reachable.construct _ _ _ _), rfl, ?_, ?_⟩
  · unfold Camera.frame
    rw [(HandleMotion_others _ _ _ _).2.2.2.1]
    simp [Camera.SetMovementSpeed, Camera.SetAcceleration, Camera.new, Camera.UpdatePlane,
      AccelDirection.toInt]
  · unfold Camera.frame
    rw [(HandleMotion_others _ _ _ _).2.2.2.2]
    simp [Camera.SetMovementSpeed, Camera.SetAcceleration, Camera.new, Camera.UpdatePlane,
      AccelDirection.toInt]

/-! ## The loop invariant of the stepping axis: each stepper stays on the ray -/

theorem DDAData.new_onRay (position r : K) : (DDAData.new position r).OnRay position r := by
  intro a b ha hb
  unfold DDAData.new at ha hb ⊢
  by_cases h0 : r = 0
  · simp [h0] at ha
  · by_cases h1 : r > 0
    · simp only [h0, h1, if_false, if_true, Flt.fin.injEq] at ha hb ⊢
      have habs : |r| = r := abs_of_pos h1
      rw [habs] at ha hb
      have hbr : b * r = 1 := by rw [← hb]; field_simp
      refine ⟨fun _ => ⟨hbr, ?_⟩, fun h => by omega⟩
      rw [← ha, hb]
      linear_combination ((truncToInt position : K) + 1 - position - 1) * hbr
    · simp only [h0, h1, if_false, Flt.fin.injEq] at ha hb ⊢
      have hneg : r < 0 := lt_of_le_of_ne (not_lt.mp h1) h0
      have habs : |r| = -r := abs_of_neg hneg
      rw [habs] at ha hb
      have hbr : b * r = -1 := by rw [← hb]; field_simp
      refine ⟨fun h => by omega, fun _ => ⟨hbr, ?_⟩⟩
      rw [← ha, hb]
      linear_combination (position - (truncToInt position : K) - 1) * hbr

theorem DDAData.advance_onRay {position r : K} {d : DDAData K} (h : d.OnRay position r) :
    d.advance.OnRay position r := by
  intro a1 b ha hb
  have hb0 : d.delta_dist = Flt.fin b := hb
  have ha0 : Flt.add d.init_dist d.delta_dist = Flt.fin a1 := ha
  rw [hb0] at ha0
  rcases hi : d.init_dist with a | _ | _ | _
  · rw [hi] at ha0
    simp only [Flt.add, Flt.fin.injEq] at ha0
    obtain ⟨h1, h2⟩ := h a b hi hb0
    have ht : ((d.advance.tile : Int) : K) = (d.tile : K) + (d.step : K) := by
      simp [DDAData.advance]
    have hs : d.advance.step = d.step := rfl
    rw [hs, ht, ← ha0]
    refine ⟨fun hp => ?_, fun hn => ?_⟩
    · obtain ⟨g1, g2⟩ := h1 hp
      refine ⟨g1, ?_⟩
      rw [hp]
      push_cast
      linear_combination g1 + g2
    · obtain ⟨g1, g2⟩ := h2 hn
      refine ⟨g1, ?_⟩
      rw [hn]
      push_cast
      linear_combination g1 + g2
  · rw [hi] at ha0; simp [Flt.add] at ha0
  · rw [hi] at ha0; simp [Flt.add] at ha0
  · rw [hi] at ha0; simp [Flt.add] at ha0

theorem rayLoop_preserves (level : Int → Int → Int) (P : RayState K → Prop)
    (hP : ∀ s, P s → P (rayBody level s)) :
    ∀ (fuel : Nat) (s s1 : RayState K), P s → rayLoop level fuel s = some s1 → P s1 := by
  intro fuel
  induction fuel with
  | zero =>
    intro s s1 hs h
    by_cases hw : s.wall_id = 0
    · rw [rayLoop_zero _ _ hw] at h; exact absurd h (by simp)
    · rw [rayLoop_of_wall _ _ _ hw] at h
      injection h with h
      rw [← h]; exact hs
  | succ n ih =>
    intro s s1 hs h
    by_cases hw : s.wall_id = 0
    · rw [rayLoop_succ _ _ _ hw] at h
      exact ih _ _ (hP s hs) h
    · rw [rayLoop_of_wall _ _ _ hw] at h
      injection h with h
      rw [← h]; exact hs

theorem rayInv_body (level : Int → Int → Int) (px rx py ry : K) (s : RayState K)
    (h : RayInv level px rx py ry s) : RayInv level px rx py ry (rayBody level s) := by
  obtain ⟨hx, hy, hne, ox, oy, -, -, -⟩ := h
  rcases rayBody_cases level s with ⟨hlt, hb⟩ | ⟨hlt, hb⟩
  · have hs := selected_x_moves hx hlt
    rw [hb]
    refine ⟨DDAData.advance_shaped hx, hy, ?_, DDAData.advance_onRay ox, oy, fun _ => hs,
      fun h => ?_, fun _ => rfl⟩
    · rintro ⟨h, -⟩
      rw [DDAData.advance_step] at h
      omega
    · simp at h
  · have hs := selected_y_moves hx hy hne hlt
    rw [hb]
    refine ⟨hx, DDAData.advance_shaped hy, ?_, ox, DDAData.advance_onRay oy, fun h => ?_,
      fun _ => hs, fun _ => rfl⟩
    · rintro ⟨-, h⟩
      rw [DDAData.advance_step] at h
      omega
    · simp at h

theorem rayInv_init (level : Int → Int → Int) (cam : Camera K) (plane_scalar : K)
    (hne : ¬ ((cam.direction.add (cam.plane.mul plane_scalar)).x = 0 ∧
       (cam.direction.add (cam.plane.mul plane_scalar)).y = 0)) :
    RayInv level cam.position.x (cam.direction.add (cam.plane.mul plane_scalar)).x
      cam.position.y (cam.direction.add (cam.plane.mul plane_scalar)).y
      (rayInit cam plane_scalar) := by
  refine ⟨DDAData.new_shaped _ _, DDAData.new_shaped _ _, ?_, DDAData.new_onRay _ _,
    DDAData.new_onRay _ _, ?_, ?_, ?_⟩
  · simp only [rayInit, DDAData.new_step_eq_zero]
    exact hne
  · intro h; simp [rayInit] at h
  · intro h; simp [rayInit] at h
  · intro h; simp [rayInit] at h

/-- A moving stepper has finite distances, and their difference is what
`Flt.sub` returns. -/
theorem moving_distance {position r : K} {d : DDAData K} (hs : d.Shaped) (ho : d.OnRay position r)
    (hm : d.step = 1 ∨ d.step = -1) :
    ∃ t : K, Flt.sub d.init_dist d.delta_dist = Flt.fin t ∧
      ((d.step = 1 ∧ position + t * r = (d.tile : K)) ∨
       (d.step = -1 ∧ position + t * r = (d.tile : K) + 1)) := by
  rcases hs with ⟨h0, -, -⟩ | ⟨-, a, b, ha, hb⟩
  · omega
  · refine ⟨a - b, by rw [ha, hb]; rfl, ?_⟩
    obtain ⟨h1, h2⟩ := ho a b ha hb
    rcases hm with hm | hm
    · exact Or.inl ⟨hm, (h1 hm).2⟩
    · exact Or.inr ⟨hm, (h2 hm).2⟩

/-- With both steppers idle and the camera in an empty tile the loop never
returns. -/
theorem rayLoop_idle (level : Int → Int → Int) :
    ∀ (fuel : Nat) (s : RayState K), s.dda_data_x.init_dist = Flt.pinf →
      s.dda_data_y.step = 0 → s.dda_data_y.init_dist = Flt.pinf →
      s.dda_data_y.delta_dist = Flt.pinf → s.wall_id = 0 →
      level s.dda_data_x.tile s.dda_data_y.tile = 0 → rayLoop level fuel s = none := by
  intro fuel
  induction fuel with
  | zero => intro s _ _ _ _ hw _; exact rayLoop_zero _ _ hw
  | succ n ih =>
    intro s hx hy hi hd hw he
    rw [rayLoop_succ _ _ _ hw]
    rcases rayBody_cases level s with ⟨hlt, -⟩ | ⟨-, hb⟩
    · rw [hx] at hlt
      simp [Flt.lt] at hlt
    · have ht : s.dda_data_y.advance.tile = s.dda_data_y.tile := by
        simp [DDAData.advance, hy]
      have hl : level s.dda_data_x.tile s.dda_data_y.advance.tile = 0 := by
        rw [ht]; exact he
      rw [hb]
      exact ih _ hx hy (by simp [DDAData.advance, hi, hd, Flt.add]) hd hl hl

theorem rayLoop_some_wall (level : Int → Int → Int) :
    ∀ (fuel : Nat) (s s1 : RayState K), rayLoop level fuel s = some s1 → s1.wall_id ≠ 0 := by
  intro fuel
  induction fuel with
  | zero =>
    intro s s1 h
    by_cases hw : s.wall_id = 0
    · rw [rayLoop_zero _ _ hw] at h; exact absurd h (by simp)
    · rw [rayLoop_of_wall _ _ _ hw] at h
      injection h with h
      rw [← h]; exact hw
  | succ n ih =>
    intro s s1 h
    by_cases hw : s.wall_id = 0
    · rw [rayLoop_succ _ _ _ hw] at h
      exact ih _ _ h
    · rw [rayLoop_of_wall _ _ _ hw] at h
      injection h with h
      rw [← h]; exact hw

theorem interior_of_empty_tile {level : Int → Int → Int} {W H x y : Int}
    (hc : ClosedMap level W H) (hx0 : 0 ≤ x) (hxW : x < W) (hy0 : 0 ≤ y) (hyH : y < H)
    (he : level x y = 0) : InteriorTile W H x y := by
  have hb : ¬ (x = 0 ∨ x = W - 1 ∨ y = 0 ∨ y = H - 1) := fun hb =>
    hc x y hx0 hxW hy0 hyH hb he
  unfold InteriorTile
  omega

/-- From an interior tile of a closed map, a ray whose direction is not zero
leaves the loop, within `W + H` iterations. -/
theorem rayLoop_returns {level : Int → Int → Int} {W H : Int} (hc : ClosedMap level W H)
    (cam : Camera K) (plane_scalar : K)
    (hi : InteriorTile W H (truncToInt cam.position.x) (truncToInt cam.position.y))
    (hne : ¬ ((cam.direction.add (cam.plane.mul plane_scalar)).x = 0 ∧
       (cam.direction.add (cam.plane.mul plane_scalar)).y = 0)) :
    ∃ (fuel : Nat) (s1 : RayState K), (fuel : Int) ≤ W + H ∧ s1.wall_id ≠ 0 ∧
      s1.wall_side ≠ none ∧
      ∀ k : Nat, rayLoop level (fuel + k) (rayInit cam plane_scalar) = some s1 := by
  have hx0 := hi.1
  have hx1 := hi.2.1
  have hy0 := hi.2.2.1
  have hy1 := hi.2.2.2
  have htx : (rayInit cam plane_scalar).dda_data_x.togo W ≤ W - 2 := by
    simp only [rayInit, DDAData.togo, DDAData.new_tile]
    split_ifs <;> omega
  have hty : (rayInit cam plane_scalar).dda_data_y.togo H ≤ H - 2 := by
    simp only [rayInit, DDAData.togo, DDAData.new_tile]
    split_ifs <;> omega
  obtain ⟨fuel, s1, hf, hl, hw, hs⟩ := rayLoop_stops hc (W + H).toNat (rayInit cam plane_scalar)
    (DDAData.new_shaped _ _) (DDAData.new_shaped _ _)
    (by
      simp only [rayInit, DDAData.new_step_eq_zero]
      exact hne)
    rfl
    (by simpa only [rayInit, DDAData.new_tile] using hi)
    (by
      rw [Int.toNat_of_nonneg (by omega)]
      omega)
  refine ⟨fuel, s1, ?_, hw, hs, fun k => rayLoop_more_fuel level k fuel _ _ hl⟩
  have := Int.toNat_of_nonneg (show 0 ≤ W + H by omega)
  omega

/-- What `rayResult` returns from a state that satisfies the loop
invariant. -/
theorem rayResult_face {level : Int → Int → Int} {px rx py ry : K} {s : RayState K}
    {r : RayData K} (hv : RayInv level px rx py ry s) (hr : rayResult s = some r) :
    r.wall_id = level s.dda_data_x.tile s.dda_data_y.tile ∧
    (r.wall_side = WallSide.kXSide →
      ∃ t : K, r.distance = Flt.fin t ∧
        ((s.dda_data_x.step = 1 ∧ px + t * rx = (s.dda_data_x.tile : K)) ∨
         (s.dda_data_x.step = -1 ∧ px + t * rx = (s.dda_data_x.tile : K) + 1))) ∧
    (r.wall_side = WallSide.kYSide →
      ∃ t : K, r.distance = Flt.fin t ∧
        ((s.dda_data_y.step = 1 ∧ py + t * ry = (s.dda_data_y.tile : K)) ∨
         (s.dda_data_y.step = -1 ∧ py + t * ry = (s.dda_data_y.tile : K) + 1))) := by
  obtain ⟨hx, hy, -, ox, oy, mx, my, hid⟩ := hv
  unfold rayResult at hr
  rcases hs : s.wall_side with _ | side
  · rw [hs] at hr; exact absurd hr (by simp)
  · have hw := hid (by rw [hs]; simp)
    cases side
    · rw [hs] at hr
      simp only [Option.some.injEq] at hr
      subst hr
      refine ⟨hw, fun _ => ?_, fun h => by simp at h⟩
      exact moving_distance hx ox (mx hs)
    · rw [hs] at hr
      simp only [Option.some.injEq] at hr
      subst hr
      refine ⟨hw, fun h => by simp at h, fun _ => ?_⟩
      exact moving_distance hy oy (my hs)

/-! ## C17: every grid index read by the loop is inside the grid -/

theorem rayReads_zero (level : Int → Int → Int) (s : RayState K) :
    rayReads level 0 s = [] := by
  by_cases hw : s.wall_id = 0 <;> simp [rayReads, hw]

theorem rayReads_of_wall (level : Int → Int → Int) (fuel : Nat) (s : RayState K)
    (h : s.wall_id ≠ 0) : rayReads level fuel s = [] := by
  cases fuel <;> simp [rayReads, h]

theorem rayReads_succ (level : Int → Int → Int) (fuel : Nat) (s : RayState K)
    (h : s.wall_id = 0) :
    rayReads level (fuel + 1) s
      = ((rayBody level s).dda_data_x.tile, (rayBody level s).dda_data_y.tile)
          :: rayReads level fuel (rayBody level s) := by
  simp [rayReads, h]

theorem rayReads_in_bounds {level : Int → Int → Int} {W H : Int} (hc : ClosedMap level W H) :
    ∀ (fuel : Nat) (s : RayState K), s.dda_data_x.Shaped → s.dda_data_y.Shaped →
      ¬ (s.dda_data_x.step = 0 ∧ s.dda_data_y.step = 0) →
      (s.wall_id = 0 → InteriorTile W H s.dda_data_x.tile s.dda_data_y.tile) →
      ∀ p ∈ rayReads level fuel s, 0 ≤ p.1 ∧ p.1 < W ∧ 0 ≤ p.2 ∧ p.2 < H := by
  intro fuel
  induction fuel with
  | zero =>
    intro s _ _ _ _ p hp
    rw [rayReads_zero] at hp
    exact absurd hp (by simp)
  | succ n ih =>
    intro s hx hy hne hi p hp
    by_cases hw : s.wall_id = 0
    · rw [rayReads_succ _ _ _ hw] at hp
      obtain ⟨h1, h2, h3, h4⟩ := hi hw
      rcases rayBody_cases level s with ⟨hlt, hb⟩ | ⟨hlt, hb⟩
      · have hs := selected_x_moves hx hlt
        have ht := DDAData.advance_tile hs
        rcases List.mem_cons.mp hp with hp | hp
        · rw [hp, hb]
          simp only []
          omega
        · refine ih (rayBody level s) ?_ ?_ ?_ ?_ p hp
          · rw [hb]; exact DDAData.advance_shaped hx
          · rw [hb]; exact hy
          · rw [hb]; rintro ⟨h, -⟩; rw [DDAData.advance_step] at h; omega
          · rw [hb]
            intro he
            exact interior_of_empty_x hc (hi hw) ht he
      · have hs := selected_y_moves hx hy hne hlt
        have ht := DDAData.advance_tile hs
        rcases List.mem_cons.mp hp with hp | hp
        · rw [hp, hb]
          simp only []
          omega
        · refine ih (rayBody level s) ?_ ?_ ?_ ?_ p hp
          · rw [hb]; exact hx
          · rw [hb]; exact DDAData.advance_shaped hy
          · rw [hb]; rintro ⟨-, h⟩; rw [DDAData.advance_step] at h; omega
          · rw [hb]
            intro he
            exact interior_of_empty_y hc (hi hw) ht he
    · rw [rayReads_of_wall _ _ _ hw] at hp
      exact absurd hp (by simp)

/-- C17: on a `W` x `H` grid whose border cells are all nonzero, for a camera
whose position lies in an interior cell, with a unit-length direction and a
plane perpendicular to it, and for every `plane_scalar`: whatever the number
of iterations, every grid index `(x_tile, y_tile)` that the loop of
`CalculateRay` reads lies within `[0, W) x [0, H)`, so that a bounds-checked
lookup finds the tile; and the loop reads at least one index. (That the
camera's own cell is empty is not needed.) -/
theorem CalculateRay_reads_in_bounds (level : Int → Int → Int) (W H : Int) (cam : Camera K)
    (plane_scalar : K) (hc : ClosedMap level W H)
    (hi : InteriorTile W H (truncToInt cam.position.x) (truncToInt cam.position.y))
    (hunit : cam.direction.x ^ 2 + cam.direction.y ^ 2 = 1)
    (hperp : cam.plane.x * cam.direction.x + cam.plane.y * cam.direction.y = 0) :
    (∀ (fuel : Nat), ∀ p ∈ rayReads level fuel (rayInit cam plane_scalar),
      (0 ≤ p.1 ∧ p.1 < W ∧ 0 ≤ p.2 ∧ p.2 < H) ∧
      tileAt level W H p.1 p.2 = some (level p.1 p.2)) ∧
    ∀ (fuel : Nat), rayReads level (fuel + 1) (rayInit cam plane_scalar) ≠ [] := by
  have hne := ray_direction_ne_zero cam plane_scalar hunit hperp
  refine ⟨fun fuel p hp => ?_, fun fuel => ?_⟩
  · have hb := rayReads_in_bounds hc fuel (rayInit cam plane_scalar)
      (DDAData.new_shaped _ _) (DDAData.new_shaped _ _)
      (by
        simp only [rayInit, DDAData.new_step_eq_zero]
        exact hne)
      (fun _ => by simpa only [rayInit, DDAData.new_tile] using hi) p hp
    exact ⟨hb, by simp [tileAt, hb]⟩
  · rw [rayReads_succ _ _ _ rfl]
    simp

/-- Witness of `CalculateRay_reads_in_bounds`: the diagonal ray of
`tieCamera` in the 5 x 5 room. -/
theorem CalculateRay_reads_in_bounds_witness :
    ClosedMap room5 5 5 ∧
    InteriorTile 5 5 (truncToInt tieCamera.position.x) (truncToInt tieCamera.position.y) ∧
    tieCamera.direction.x ^ 2 + tieCamera.direction.y ^ 2 = 1 ∧
    tieCamera.plane.x * tieCamera.direction.x + tieCamera.plane.y * tieCamera.direction.y = 0 ∧
    ∀ p ∈ rayReads room5 10 (rayInit tieCamera (-1)), 0 ≤ p.1 ∧ p.1 < 5 ∧ 0 ≤ p.2 ∧ p.2 < 5 :=
  have hi : InteriorTile 5 5 (truncToInt tieCamera.position.x)
      (truncToInt tieCamera.position.y) := by
    simp [tieCamera, truncToInt_five_halves, InteriorTile]
  have hu : tieCamera.direction.x ^ 2 + tieCamera.direction.y ^ 2 = 1 := by simp [tieCamera]
  have hp : tieCamera.plane.x * tieCamera.direction.x
      + tieCamera.plane.y * tieCamera.direction.y = 0 := by simp [tieCamera]
  ⟨room5_closed, hi, hu, hp, fun p hm =>
    ((CalculateRay_reads_in_bounds room5 5 5 tieCamera (-1) room5_closed hi hu hp).1 10 p hm).1⟩

/-! ## C18: the cells read by the collision tests -/

/-- C20 (evaluation at the failing input): in `pillarRoom`, `cornerCamera`
stands at `(1.9, 1.9)` in the empty tile `(1, 1)`; for a frame time of 0.5 the
two collision tests read the empty cells `(2, 1)` and `(1, 2)`, both moves are
made, and the camera ends at `(2.2, 2.3)`, in the pillar tile `(2, 2)`. -/
theorem HandleMotion_into_corner :
    (0 : ℚ) ≤ cornerCamera.position.x ∧ (0 : ℚ) ≤ cornerCamera.position.y ∧
    pillarRoom (truncToInt cornerCamera.position.x) (truncToInt cornerCamera.position.y) = 0 ∧
    cornerCamera.moveReads (1 / 2) = [(2, 1), (1, 2)] ∧
    pillarRoom 2 1 = 0 ∧ pillarRoom 1 2 = 0 ∧
    ∀ m : Libm ℚ,
      (cornerCamera.HandleMotion m pillarRoom (1 / 2)).position = ⟨11 / 5, 23 / 10⟩ ∧
      pillarRoom (truncToInt (cornerCamera.HandleMotion m pillarRoom (1 / 2)).position.x)
        (truncToInt (cornerCamera.HandleMotion m pillarRoom (1 / 2)).position.y) = 2 := by
  have t1 : truncToInt (19 / 10 : ℚ) = 1 := by
    rw [truncToInt_of_nonneg (by norm_num), Int.floor_eq_iff]
    constructor <;> norm_num
  have ex : (19 / 10 + 3 / 5 * (1 * (1 / 2)) : ℚ) = 11 / 5 := by norm_num
  have ey : (19 / 10 + 4 / 5 * (1 * (1 / 2)) : ℚ) = 23 / 10 := by norm_num
  have t2 : truncToInt (11 / 5 : ℚ) = 2 := by
    rw [truncToInt_of_nonneg (by norm_num), Int.floor_eq_iff]
    constructor <;> norm_num
  have t3 : truncToInt (23 / 10 : ℚ) = 2 := by
    rw [truncToInt_of_nonneg (by norm_num), Int.floor_eq_iff]
    constructor <;> norm_num
  have hms : cornerCamera.movement_speed ≠ 0 := by
    show (1 : ℚ) ≠ 0
    norm_num
  have h21 : pillarRoom 2 1 = 0 := by decide
  have h12 : pillarRoom 1 2 = 0 := by decide
  have hpos : ∀ m : Libm ℚ,
      (cornerCamera.HandleMotion m pillarRoom (1 / 2)).position = ⟨11 / 5, 23 / 10⟩ := by
    intro m
    rw [HandleMotion_position m pillarRoom cornerCamera (1 / 2) hms]
    show (⟨if pillarRoom (truncToInt (19 / 10 + 3 / 5 * (1 * (1 / 2)) : ℚ))
              (truncToInt (19 / 10 : ℚ)) = 0
            then (19 / 10 + 3 / 5 * (1 * (1 / 2)) : ℚ) else 19 / 10,
          if pillarRoom (truncToInt (19 / 10 : ℚ))
              (truncToInt (19 / 10 + 4 / 5 * (1 * (1 / 2)) : ℚ)) = 0
            then (19 / 10 + 4 / 5 * (1 * (1 / 2)) : ℚ) else 19 / 10⟩ : Vector ℚ)
        = ⟨11 / 5, 23 / 10⟩
    rw [ex, ey, t1, t2, t3, if_pos h21, if_pos h12]
  refine ⟨?_, ?_, ?_, ?_, h21, h12, fun m => ⟨hpos m, ?_⟩⟩
  · show (0 : ℚ) ≤ 19 / 10
    norm_num
  · show (0 : ℚ) ≤ 19 / 10
    norm_num
  · show pillarRoom (truncToInt (19 / 10 : ℚ)) (truncToInt (19 / 10 : ℚ)) = 0
    rw [t1]
    decide
  · unfold Camera.moveReads
    rw [if_pos hms]
    show [(truncToInt (19 / 10 + 3 / 5 * (1 * (1 / 2)) : ℚ), truncToInt (19 / 10 : ℚ)),
      (truncToInt (19 / 10 : ℚ), truncToInt (19 / 10 + 4 / 5 * (1 * (1 / 2)) : ℚ))]
        = [(2, 1), (1, 2)]
    rw [ex, ey, t1, t2, t3]
  · rw [hpos m]
    show pillarRoom (truncToInt (11 / 5 : ℚ)) (truncToInt (23 / 10 : ℚ)) = 2
    rw [t2, t3]
    decide

/-! ## C22: the deceleration ramp undershoots zero -/

theorem SetMovementSpeed_decel_forward_above (cam : Camera K) (frame_time : K)
    (hs : cam.accel_state = AccelState.kDeaccelerate)
    (hd : cam.accel_direction = AccelDirection.kForward)
    (h : 0 < cam.movement_speed) :
    (cam.SetMovementSpeed frame_time).movement_speed
        = cam.movement_speed - 5 / 2 * frame_time ∧
    (cam.SetMovementSpeed frame_time).accel_state = AccelState.kDeaccelerate ∧
    (cam.SetMovementSpeed frame_time).accel_direction = AccelDirection.kForward := by
  simp [Camera.SetMovementSpeed, hs, hd, AccelDirection.toInt, kMaxMovementSpeed, h]

theorem SetMovementSpeed_decel_forward_reached (cam : Camera K) (frame_time : K)
    (hs : cam.accel_state = AccelState.kDeaccelerate)
    (hd : cam.accel_direction = AccelDirection.kForward)
    (h : cam.movement_speed ≤ 0) :
    (cam.SetMovementSpeed frame_time).movement_speed = 0 ∧
    (cam.SetMovementSpeed frame_time).accel_state = AccelState.kNone := by
  simp [Camera.SetMovementSpeed, hs, hd, AccelDirection.toInt, not_lt.mpr h,
    Camera.SetAcceleration]

theorem ramp_down_above (cam : Camera K) (frame_time : K) (n : Nat) (v : K)
    (hv : (Camera.ramp cam frame_time n).movement_speed = v)
    (hs : (Camera.ramp cam frame_time n).accel_state = AccelState.kDeaccelerate)
    (hd : (Camera.ramp cam frame_time n).accel_direction = AccelDirection.kForward)
    (h : 0 < v) :
    (Camera.ramp cam frame_time (n + 1)).movement_speed = v - 5 / 2 * frame_time ∧
    (Camera.ramp cam frame_time (n + 1)).accel_state = AccelState.kDeaccelerate ∧
    (Camera.ramp cam frame_time (n + 1)).accel_direction = AccelDirection.kForward := by
  have h1 := SetMovementSpeed_decel_forward_above _ frame_time hs hd (by rw [hv]; exact h)
  rw [hv] at h1
  exact h1

theorem ramp_down_reached (cam : Camera K) (frame_time : K) (n : Nat) (v : K)
    (hv : (Camera.ramp cam frame_time n).movement_speed = v)
    (hs : (Camera.ramp cam frame_time n).accel_state = AccelState.kDeaccelerate)
    (hd : (Camera.ramp cam frame_time n).accel_direction = AccelDirection.kForward)
    (h : v ≤ 0) :
    (Camera.ramp cam frame_time (n + 1)).movement_speed = 0 ∧
    (Camera.ramp cam frame_time (n + 1)).accel_state = AccelState.kNone :=
  SetMovementSpeed_decel_forward_reached _ frame_time hs hd (by rw [hv]; exact h)

/-- C22 (evaluation at the failing input): with `movement_speed =
kMaxMovementSpeed = 2.5` and the acceleration set to decelerate forward, the
calls of `SetMovementSpeed(0.3)` give the speeds 1.75, 1, 0.25 and then -0.5,
a negative speed with `accel_state` still `kDeaccelerate`; only the fifth call
sets the speed to 0 and the state to `kNone`. -/
theorem ramp_down_goes_negative (cam : Camera K) (h0 : cam.movement_speed = kMaxMovementSpeed)
    (hs : cam.accel_state = AccelState.kDeaccelerate)
    (hd : cam.accel_direction = AccelDirection.kForward) :
    (Camera.ramp cam (3 / 10) 1).movement_speed = 7 / 4 ∧
    (Camera.ramp cam (3 / 10) 2).movement_speed = 1 ∧
    (Camera.ramp cam (3 / 10) 3).movement_speed = 1 / 4 ∧
    (Camera.ramp cam (3 / 10) 4).movement_speed = -1 / 2 ∧
    (Camera.ramp cam (3 / 10) 4).accel_state = AccelState.kDeaccelerate ∧
    (Camera.ramp cam (3 / 10) 4).movement_speed < 0 ∧
    (Camera.ramp cam (3 / 10) 5).movement_speed = 0 ∧
    (Camera.ramp cam (3 / 10) 5).accel_state = AccelState.kNone := by
  have h0' : (Camera.ramp cam (3 / 10) 0).movement_speed = 5 / 2 := by
    rw [← show (kMaxMovementSpeed : K) = 5 / 2 from rfl]
    exact h0
  obtain ⟨v1, s1, d1⟩ := ramp_down_above cam (3 / 10) 0 _ h0' hs hd (by norm_num)
  have w1 : (Camera.ramp cam (3 / 10) 1).movement_speed = 7 / 4 := by rw [v1]; norm_num
  obtain ⟨v2, s2, d2⟩ := ramp_down_above cam (3 / 10) 1 _ w1 s1 d1 (by norm_num)
  have w2 : (Camera.ramp cam (3 / 10) 2).movement_speed = 1 := by rw [v2]; norm_num
  obtain ⟨v3, s3, d3⟩ := ramp_down_above cam (3 / 10) 2 _ w2 s2 d2 (by norm_num)
  have w3 : (Camera.ramp cam (3 / 10) 3).movement_speed = 1 / 4 := by rw [v3]; norm_num
  obtain ⟨v4, s4, d4⟩ := ramp_down_above cam (3 / 10) 3 _ w3 s3 d3 (by norm_num)
  have w4 : (Camera.ramp cam (3 / 10) 4).movement_speed = -1 / 2 := by rw [v4]; norm_num
  obtain ⟨v5, s5⟩ := ramp_down_reached cam (3 / 10) 4 _ w4 s4 d4 (by norm_num)
  refine ⟨w1, w2, w3, w4, s4, ?_, v5, s5⟩
  rw [w4]
  norm_num

/-- Witness of `ramp_down_goes_negative`: `fastCamera`, which moves at the
maximum speed, told to decelerate forward. -/
theorem ramp_down_goes_negative_witness :
    (fastCamera.SetAcceleration AccelState.kDeaccelerate
        AccelDirection.kForward).movement_speed = kMaxMovementSpeed ∧
    (fastCamera.SetAcceleration AccelState.kDeaccelerate
        AccelDirection.kForward).accel_state = AccelState.kDeaccelerate ∧
    (fastCamera.SetAcceleration AccelState.kDeaccelerate
        AccelDirection.kForward).accel_direction = AccelDirection.kForward ∧
    (Camera.ramp (fastCamera.SetAcceleration AccelState.kDeaccelerate AccelDirection.kForward)
        (3 / 10) 4).movement_speed = -1 / 2 ∧
    (Camera.ramp (fastCamera.SetAcceleration AccelState.kDeaccelerate AccelDirection.kForward)
        (3 / 10) 4).movement_speed < 0 :=
  have h := ramp_down_goes_negative
    (fastCamera.SetAcceleration AccelState.kDeaccelerate AccelDirection.kForward) rfl rfl rfl
  ⟨rfl, rfl, rfl, h.2.2.2.1, h.2.2.2.2.2.1⟩

/-! ## C21: the sign of the returned distance -/

theorem DDAData.new_step_sign (position r : K) :
    ((DDAData.new position r).step = 1 → 0 < r) ∧
    ((DDAData.new position r).step = -1 → r < 0) := by
  unfold DDAData.new
  by_cases h0 : r = 0
  · simp [h0]
  · by_cases h1 : r > 0
    · simp [h0, h1]
    · have hneg : r < 0 := lt_of_le_of_ne (not_lt.mp h1) h0
      simp [h0, h1, hneg]

theorem rayAhead_init (cam : Camera K) (plane_scalar : K) :
    RayAhead (truncToInt cam.position.x) (truncToInt cam.position.y)
      (cam.direction.add (cam.plane.mul plane_scalar)).x
      (cam.direction.add (cam.plane.mul plane_scalar)).y (rayInit cam plane_scalar) := by
  obtain ⟨hx1, hx2⟩ := DDAData.new_step_sign cam.position.x
    (cam.direction.add (cam.plane.mul plane_scalar)).x
  obtain ⟨hy1, hy2⟩ := DDAData.new_step_sign cam.position.y
    (cam.direction.add (cam.plane.mul plane_scalar)).y
  have tx : (rayInit cam plane_scalar).dda_data_x.tile = truncToInt cam.position.x :=
    DDAData.new_tile _ _
  have ty : (rayInit cam plane_scalar).dda_data_y.tile = truncToInt cam.position.y :=
    DDAData.new_tile _ _
  refine ⟨fun h => ⟨hx1 h, by rw [tx]⟩, fun h => ⟨hx2 h, by rw [tx]⟩,
    fun h => ⟨hy1 h, by rw [ty]⟩, fun h => ⟨hy2 h, by rw [ty]⟩, ?_, ?_⟩
  · intro h; simp [rayInit] at h
  · intro h; simp [rayInit] at h

theorem rayAhead_body (level : Int → Int → Int) (tx0 ty0 : Int) (rx ry : K) (s : RayState K)
    (h : RayAhead tx0 ty0 rx ry s) : RayAhead tx0 ty0 rx ry (rayBody level s) := by
  obtain ⟨x1, x2, y1, y2, -, -⟩ := h
  rcases rayBody_cases level s with ⟨-, hb⟩ | ⟨-, hb⟩
  · rw [hb]
    have hs : s.dda_data_x.advance.step = s.dda_data_x.step := rfl
    have ht : s.dda_data_x.advance.tile = s.dda_data_x.tile + s.dda_data_x.step := rfl
    refine ⟨fun h => ?_, fun h => ?_, y1, y2, fun _ => ⟨fun h => ?_, fun h => ?_⟩,
      fun h => by simp at h⟩
    · rw [hs] at h
      obtain ⟨g1, g2⟩ := x1 h
      exact ⟨g1, by rw [ht, h]; omega⟩
    · rw [hs] at h
      obtain ⟨g1, g2⟩ := x2 h
      exact ⟨g1, by rw [ht, h]; omega⟩
    · rw [hs] at h
      obtain ⟨-, g2⟩ := x1 h
      rw [ht, h]; omega
    · rw [hs] at h
      obtain ⟨-, g2⟩ := x2 h
      rw [ht, h]; omega
  · rw [hb]
    have hs : s.dda_data_y.advance.step = s.dda_data_y.step := rfl
    have ht : s.dda_data_y.advance.tile = s.dda_data_y.tile + s.dda_data_y.step := rfl
    refine ⟨x1, x2, fun h => ?_, fun h => ?_, fun h => by simp at h,
      fun _ => ⟨fun h => ?_, fun h => ?_⟩⟩
    · rw [hs] at h
      obtain ⟨g1, g2⟩ := y1 h
      exact ⟨g1, by rw [ht, h]; omega⟩
    · rw [hs] at h
      obtain ⟨g1, g2⟩ := y2 h
      exact ⟨g1, by rw [ht, h]; omega⟩
    · rw [hs] at h
      obtain ⟨-, g2⟩ := y1 h
      rw [ht, h]; omega
    · rw [hs] at h
      obtain ⟨-, g2⟩ := y2 h
      rw [ht, h]; omega

/-- The ray parameter of a face beyond the start tile, on one axis: it is
not negative, and it is zero only when the start coordinate is a whole
number, the ray component is negative and the tile is the one next to the
start tile. -/
theorem face_parameter_sign {p r t : K} {tile step : Int}
    (hpos : step = 1 → 0 < r ∧ ⌊p⌋ + 1 ≤ tile)
    (hneg : step = -1 → r < 0 ∧ tile ≤ ⌊p⌋ - 1)
    (hf : (step = 1 ∧ p + t * r = (tile : K)) ∨ (step = -1 ∧ p + t * r = (tile : K) + 1)) :
    0 ≤ t ∧ (0 < t ↔ ¬ (((⌊p⌋ : Int) : K) = p ∧ r < 0 ∧ tile = ⌊p⌋ - 1)) := by
  have hfl := Int.floor_le p
  have hlt := Int.lt_floor_add_one p
  rcases hf with ⟨hs, he⟩ | ⟨hs, he⟩
  · obtain ⟨hr, ht⟩ := hpos hs
    have htc : ((⌊p⌋ : Int) : K) + 1 ≤ (tile : K) := by exact_mod_cast ht
    have hprod : 0 < t * r := by linarith
    have htpos : 0 < t := (pos_iff_pos_of_mul_pos hprod).mpr hr
    refine ⟨htpos.le, fun _ => ?_, fun _ => htpos⟩
    rintro ⟨-, hn, -⟩
    exact lt_asymm hr hn
  · obtain ⟨hr, ht⟩ := hneg hs
    have htc : (tile : K) + 1 ≤ ((⌊p⌋ : Int) : K) := by
      have : tile + 1 ≤ ⌊p⌋ := by omega
      exact_mod_cast this
    have hprod : t * r ≤ 0 := by linarith
    have ht0 : 0 ≤ t := by
      by_contra hc
      have hc' : t < 0 := not_le.mp hc
      have := mul_pos_of_neg_of_neg hc' hr
      linarith
    refine ⟨ht0, fun htpos => ?_, fun hn => ?_⟩
    · rintro ⟨hw, -, hte⟩
      have hte' : (tile : K) + 1 = ((⌊p⌋ : Int) : K) := by
        have : tile + 1 = ⌊p⌋ := by omega
        exact_mod_cast this
      have hz : t * r = 0 := by linarith
      have hneg2 : t * r < 0 := mul_neg_of_pos_of_neg htpos hr
      rw [hz] at hneg2
      exact lt_irrefl _ hneg2
    · by_contra hc
      have hc' : t = 0 := le_antisymm (not_lt.mp hc) ht0
      rw [hc', zero_mul, add_zero] at he
      apply hn
      have hle : ((⌊p⌋ : Int) : K) ≤ (tile : K) + 1 := by rw [← he]; exact hfl
      have heq : (tile : K) + 1 = ((⌊p⌋ : Int) : K) := le_antisymm htc hle
      refine ⟨by rw [← heq, he], hr, ?_⟩
      have : tile + 1 = ⌊p⌋ := by exact_mod_cast heq
      omega

/-- With a zero ray direction the loop does not return from an empty tile. -/
theorem rayLoop_zero_ray (level : Int → Int → Int) (cam : Camera K) (plane_scalar : K)
    (fuel : Nat)
    (he : level (truncToInt cam.position.x) (truncToInt cam.position.y) = 0)
    (h0 : (cam.direction.add (cam.plane.mul plane_scalar)).x = 0 ∧
      (cam.direction.add (cam.plane.mul plane_scalar)).y = 0) :
    rayLoop level fuel (rayInit cam plane_scalar) = none := by
  apply rayLoop_idle
  · simp [rayInit, h0.1, DDAData.new_zero]
  · simp [rayInit, h0.2, DDAData.new_zero]
  · simp [rayInit, h0.2, DDAData.new_zero]
  · simp [rayInit, h0.2, DDAData.new_zero]
  · rfl
  · simp only [rayInit, DDAData.new_tile]
    exact he

/-- C21 (as amended): on a closed map, for a camera at non-negative
coordinates in an empty tile of the map and every `plane_scalar`: if the ray
direction is not zero, `CalculateRay` returns a result for some amount of
fuel; and whenever the loop ends in a state `s` and `CalculateRay` returns
`r`, the distance is a finite number that is not negative, and it is strictly
positive except when the camera stands on the face that is hit: for `kXSide`
the distance is positive unless `position.x` is a whole number,
`ray_direction.x < 0` and the hit tile lies in the column next to the
camera's, `position.x - 1`; for `kYSide` the same holds on the Y axis. -/
theorem CalculateRay_distance_positive (level : Int → Int → Int) (W H : Int) (cam : Camera K)
    (plane_scalar : K) (hc : ClosedMap level W H)
    (hx : 0 ≤ cam.position.x) (hy : 0 ≤ cam.position.y)
    (hW : ⌊cam.position.x⌋ < W) (hH : ⌊cam.position.y⌋ < H)
    (he : level ⌊cam.position.x⌋ ⌊cam.position.y⌋ = 0) :
    (¬ ((cam.direction.add (cam.plane.mul plane_scalar)).x = 0 ∧
        (cam.direction.add (cam.plane.mul plane_scalar)).y = 0) →
      ∃ (fuel : Nat) (s : RayState K) (r : RayData K),
        rayLoop level fuel (rayInit cam plane_scalar) = some s ∧
        cam.CalculateRay level plane_scalar fuel = some r) ∧
    ∀ (fuel : Nat) (s : RayState K) (r : RayData K),
      rayLoop level fuel (rayInit cam plane_scalar) = some s →
      cam.CalculateRay level plane_scalar fuel = some r →
      ∃ t : K, r.distance = Flt.fin t ∧ 0 ≤ t ∧
        (r.wall_side = WallSide.kXSide →
          (0 < t ↔ ¬ (((⌊cam.position.x⌋ : Int) : K) = cam.position.x ∧
            (cam.direction.add (cam.plane.mul plane_scalar)).x < 0 ∧
            s.dda_data_x.tile = ⌊cam.position.x⌋ - 1))) ∧
        (r.wall_side = WallSide.kYSide →
          (0 < t ↔ ¬ (((⌊cam.position.y⌋ : Int) : K) = cam.position.y ∧
            (cam.direction.add (cam.plane.mul plane_scalar)).y < 0 ∧
            s.dda_data_y.tile = ⌊cam.position.y⌋ - 1))) := by
  have htx : truncToInt cam.position.x = ⌊cam.position.x⌋ := truncToInt_of_nonneg hx
  have hty : truncToInt cam.position.y = ⌊cam.position.y⌋ := truncToInt_of_nonneg hy
  constructor
  · intro hne
    have hi : InteriorTile W H (truncToInt cam.position.x) (truncToInt cam.position.y) := by
      rw [htx, hty]
      exact interior_of_empty_tile hc (Int.floor_nonneg.mpr hx) hW (Int.floor_nonneg.mpr hy) hH he
    obtain ⟨fuel, s1, -, -, hs, hl⟩ := rayLoop_returns hc cam plane_scalar hi hne
    obtain ⟨r, hr, -⟩ := rayResult_of_side hs
    have hl0 : rayLoop level fuel (rayInit cam plane_scalar) = some s1 := hl 0
    refine ⟨fuel, s1, r, hl0, ?_⟩
    rw [Camera.CalculateRay, hl0]
    exact hr
  · intro fuel s r hl hr
    rw [Camera.CalculateRay, hl] at hr
    have hr1 : rayResult s = some r := hr
    by_cases hne : (cam.direction.add (cam.plane.mul plane_scalar)).x = 0 ∧
        (cam.direction.add (cam.plane.mul plane_scalar)).y = 0
    · exfalso
      rw [rayLoop_zero_ray level cam plane_scalar fuel (by rw [htx, hty]; exact he) hne] at hl
      exact absurd hl (by simp)
    · have hv := rayLoop_preserves level _ (rayInv_body level cam.position.x
        (cam.direction.add (cam.plane.mul plane_scalar)).x cam.position.y
        (cam.direction.add (cam.plane.mul plane_scalar)).y) fuel _ s
        (rayInv_init level cam plane_scalar hne) hl
      have ha := rayLoop_preserves level _ (rayAhead_body level (truncToInt cam.position.x)
        (truncToInt cam.position.y) (cam.direction.add (cam.plane.mul plane_scalar)).x
        (cam.direction.add (cam.plane.mul plane_scalar)).y) fuel _ s
        (rayAhead_init cam plane_scalar) hl
      rw [htx, hty] at ha
      obtain ⟨x1, x2, y1, y2, ax, ay⟩ := ha
      obtain ⟨-, fx, fy⟩ := rayResult_face hv hr1
      have hside : s.wall_side = some r.wall_side := by
        unfold rayResult at hr1
        rcases hs : s.wall_side with _ | side
        · rw [hs] at hr1; exact absurd hr1 (by simp)
        · cases side <;> rw [hs] at hr1 <;> simp only [Option.some.injEq] at hr1 <;>
            rw [← hr1]
      rcases hrs : r.wall_side with _ | _
      · obtain ⟨t, ht, hf⟩ := fx hrs
        rw [hrs] at hside
        obtain ⟨g1, g2⟩ := ax hside
        obtain ⟨n0, n1⟩ := face_parameter_sign (p := cam.position.x)
          (fun h => ⟨(x1 h).1, g1 h⟩) (fun h => ⟨(x2 h).1, g2 h⟩) hf
        exact ⟨t, ht, n0, fun _ => n1, fun h => by simp at h⟩
      · obtain ⟨t, ht, hf⟩ := fy hrs
        rw [hrs] at hside
        obtain ⟨g1, g2⟩ := ay hside
        obtain ⟨n0, n1⟩ := face_parameter_sign (p := cam.position.y)
          (fun h => ⟨(y1 h).1, g1 h⟩) (fun h => ⟨(y2 h).1, g2 h⟩) hf
        exact ⟨t, ht, n0, fun h => by simp at h, fun _ => n1⟩

/-- Witness of `CalculateRay_distance_positive`: the diagonal ray of
`tieCamera` in the 5 x 5 room returns a result. -/
theorem CalculateRay_distance_positive_witness :
    ClosedMap room5 5 5 ∧ (0 : ℚ) ≤ tieCamera.position.x ∧ (0 : ℚ) ≤ tieCamera.position.y ∧
    ⌊tieCamera.position.x⌋ < 5 ∧ ⌊tieCamera.position.y⌋ < 5 ∧
    room5 ⌊tieCamera.position.x⌋ ⌊tieCamera.position.y⌋ = 0 ∧
    ∃ (fuel : Nat) (s : RayState ℚ) (r : RayData ℚ),
      rayLoop room5 fuel (rayInit tieCamera (-1)) = some s ∧
      tieCamera.CalculateRay room5 (-1) fuel = some r :=
  have hf : ⌊(5 / 2 : ℚ)⌋ = 2 := by
    rw [Int.floor_eq_iff]; constructor <;> norm_num
  have hx : (0 : ℚ) ≤ tieCamera.position.x := by
    show (0 : ℚ) ≤ 5 / 2
    norm_num
  have hW : ⌊tieCamera.position.x⌋ < 5 := by
    show ⌊(5 / 2 : ℚ)⌋ < 5
    rw [hf]; decide
  have he : room5 ⌊tieCamera.position.x⌋ ⌊tieCamera.position.y⌋ = 0 := by
    show room5 ⌊(5 / 2 : ℚ)⌋ ⌊(5 / 2 : ℚ)⌋ = 0
    rw [hf]; decide
  ⟨room5_closed, hx, hx, hW, hW, he,
    (CalculateRay_distance_positive room5 5 5 tieCamera (-1) room5_closed hx hx hW hW he).1 (by
      simp [tieCamera, Vector.add, Vector.mul])⟩

/-- C21 (as stated) fails: in the closed 5 x 5 room, `faceCamera` stands at
`(1, 2.5)` in the empty tile `(1, 2)` and looks along `(-1, 0)`; the ray
straight ahead returns after one iteration with `wall_id = 1`, `kXSide` and
the distance 0, which is not strictly positive. -/
theorem CalculateRay_distance_zero :
    ClosedMap room5 5 5 ∧ (0 : ℚ) ≤ faceCamera.position.x ∧ (0 : ℚ) ≤ faceCamera.position.y ∧
    room5 ⌊faceCamera.position.x⌋ ⌊faceCamera.position.y⌋ = 0 ∧
    (∀ n : Nat, faceCamera.CalculateRay room5 0 (n + 1)
      = some ⟨Flt.fin 0, 1, WallSide.kXSide⟩) ∧
    ¬ ∀ (fuel : Nat) (r : RayData ℚ), faceCamera.CalculateRay room5 0 fuel = some r →
        ∃ t : ℚ, r.distance = Flt.fin t ∧ 0 < t := by
  have hf : ⌊(5 / 2 : ℚ)⌋ = 2 := by
    rw [Int.floor_eq_iff]; constructor <;> norm_num
  have t1 : truncToInt (1 : ℚ) = 1 := by
    rw [truncToInt_of_nonneg (by norm_num), Int.floor_one]
  have hinit : rayInit faceCamera 0
      = ⟨⟨1, -1, Flt.fin 1, Flt.fin 0⟩, ⟨2, 0, Flt.pinf, Flt.pinf⟩, 0, none⟩ := by
    simp [rayInit, faceCamera, Vector.add, Vector.mul, DDAData.new, truncToInt_five_halves, t1]
  have hbody : rayBody room5
      (⟨⟨1, -1, Flt.fin 1, Flt.fin 0⟩, ⟨2, 0, Flt.pinf, Flt.pinf⟩, 0, none⟩ : RayState ℚ)
      = ⟨⟨0, -1, Flt.fin 1, Flt.fin 1⟩, ⟨2, 0, Flt.pinf, Flt.pinf⟩, 1,
          some WallSide.kXSide⟩ := by
    simp [rayBody, Flt.lt, Flt.add, room5]
  have hray : ∀ n : Nat, faceCamera.CalculateRay room5 0 (n + 1)
      = some ⟨Flt.fin 0, 1, WallSide.kXSide⟩ := by
    intro n
    rw [Camera.CalculateRay, hinit, rayLoop_succ _ _ _ rfl, hbody,
      rayLoop_of_wall _ _ _ (by simp)]
    simp [rayResult, Flt.sub]
  refine ⟨room5_closed, ?_, ?_, ?_, hray, ?_⟩
  · show (0 : ℚ) ≤ 1
    norm_num
  · show (0 : ℚ) ≤ 5 / 2
    norm_num
  · show room5 ⌊(1 : ℚ)⌋ ⌊(5 / 2 : ℚ)⌋ = 0
    rw [Int.floor_one, hf]
    decide
  · intro h
    obtain ⟨t, ht, hpos⟩ := h 1 _ (hray 0)
    simp only [Flt.fin.injEq] at ht
    rw [← ht] at hpos
    exact lt_irrefl _ hpos

/-! ## C16: the returned distance is the ray parameter of the face that was hit -/

theorem rayLoop_preserves_running (level : Int → Int → Int) (P : RayState K → Prop)
    (hP : ∀ s, s.wall_id = 0 → P s → P (rayBody level s)) :
    ∀ (fuel : Nat) (s s1 : RayState K), P s → rayLoop level fuel s = some s1 → P s1 := by
  intro fuel
  induction fuel with
  | zero =>
    intro s s1 hs h
    by_cases hw : s.wall_id = 0
    · rw [rayLoop_zero _ _ hw] at h; exact absurd h (by simp)
    · rw [rayLoop_of_wall _ _ _ hw] at h
      injection h with h
      rw [← h]; exact hs
  | succ n ih =>
    intro s s1 hs h
    by_cases hw : s.wall_id = 0
    · rw [rayLoop_succ _ _ _ hw] at h
      exact ih _ _ (hP s hw hs) h
    · rw [rayLoop_of_wall _ _ _ hw] at h
      injection h with h
      rw [← h]; exact hs

/-- The distances of a fresh stepper at a non-negative coordinate: the ray
enters the start tile at a parameter that is not positive and leaves it at a
parameter that is not negative. -/
theorem DDAData.new_clock {position : K} (r : K) (hp : 0 ≤ position) :
    ∀ a b : K, (DDAData.new position r).init_dist = Flt.fin a →
      (DDAData.new position r).delta_dist = Flt.fin b → 0 < b ∧ a - b ≤ 0 ∧ 0 ≤ a := by
  intro a b ha hb
  have hfl := Int.floor_le position
  have hlt := Int.lt_floor_add_one position
  unfold DDAData.new at ha hb
  rw [truncToInt_of_nonneg hp] at ha
  by_cases h0 : r = 0
  · simp [h0] at ha
  · have habs : 0 < |r| := abs_pos.mpr h0
    have hb0 : 0 < 1 / |r| := one_div_pos.mpr habs
    by_cases h1 : r > 0
    · simp only [h0, h1, if_false, if_true, Flt.fin.injEq] at ha hb
      rw [← hb, ← ha]
      refine ⟨hb0, ?_, ?_⟩
      · have : ((⌊position⌋ : K) + 1 - position) * (1 / |r|) ≤ 1 * (1 / |r|) :=
          mul_le_mul_of_nonneg_right (by linarith) hb0.le
        linarith
      · exact mul_nonneg (by linarith) hb0.le
    · simp only [h0, h1, if_false, Flt.fin.injEq] at ha hb
      rw [← hb, ← ha]
      refine ⟨hb0, ?_, ?_⟩
      · have : (position - (⌊position⌋ : K)) * (1 / |r|) ≤ 1 * (1 / |r|) :=
          mul_le_mul_of_nonneg_right (by linarith) hb0.le
        linarith
      · exact mul_nonneg (by linarith) hb0.le

/-- While the parameter `u` lies between the entry and the exit of the
current tile on an axis, the coordinate of the ray point on that axis lies in
the span of the tile. -/
theorem axis_span {position r : K} {d : DDAData K} (hs : d.Shaped) (ho : d.OnRay position r)
    (hidle : d.step = 0 → r = 0 ∧ (d.tile : K) ≤ position ∧ position ≤ (d.tile : K) + 1)
    (u : K)
    (hu : ∀ a b : K, d.init_dist = Flt.fin a → d.delta_dist = Flt.fin b →
      0 < b ∧ a - b ≤ u ∧ u ≤ a) :
    (d.tile : K) ≤ position + u * r ∧ position + u * r ≤ (d.tile : K) + 1 := by
  rcases hs with ⟨h0, -, -⟩ | ⟨hm, a, b, ha, hb⟩
  · obtain ⟨hr, h1, h2⟩ := hidle h0
    rw [hr, mul_zero, add_zero]
    exact ⟨h1, h2⟩
  · obtain ⟨hb0, hlo, hhi⟩ := hu a b ha hb
    obtain ⟨o1, o2⟩ := ho a b ha hb
    rcases hm with hm | hm
    · obtain ⟨hbr, hline⟩ := o1 hm
      have hr : 0 < r := by
        have h1 : 0 < b * r := by rw [hbr]; exact one_pos
        exact (pos_iff_pos_of_mul_pos h1).mp hb0
      have e1 : 0 ≤ (u - (a - b)) * r := mul_nonneg (by linarith) hr.le
      have e2 : (u - (a - b)) * r ≤ b * r :=
        mul_le_mul_of_nonneg_right (by linarith) hr.le
      constructor <;> nlinarith
    · obtain ⟨hbr, hline⟩ := o2 hm
      have hr : r < 0 := by
        by_contra hc
        have h1 : 0 ≤ b * r := mul_nonneg hb0.le (not_lt.mp hc)
        rw [hbr] at h1
        linarith
      have e1 : (u - (a - b)) * r ≤ 0 :=
        mul_nonpos_of_nonneg_of_nonpos (by linarith) hr.le
      have e2 : b * r ≤ (u - (a - b)) * r :=
        mul_le_mul_of_nonpos_right (by linarith) hr.le
      constructor <;> nlinarith

theorem rayClock_init (level : Int → Int → Int) (cam : Camera K) (plane_scalar : K)
    (hx : 0 ≤ cam.position.x) (hy : 0 ≤ cam.position.y)
    (he : level ⌊cam.position.x⌋ ⌊cam.position.y⌋ = 0) :
    RayClock level cam.position.x (cam.direction.add (cam.plane.mul plane_scalar)).x
      cam.position.y (cam.direction.add (cam.plane.mul plane_scalar)).y
      (rayInit cam plane_scalar) := by
  have tx : (rayInit cam plane_scalar).dda_data_x.tile = ⌊cam.position.x⌋ := by
    rw [← truncToInt_of_nonneg hx]; exact DDAData.new_tile _ _
  have ty : (rayInit cam plane_scalar).dda_data_y.tile = ⌊cam.position.y⌋ := by
    rw [← truncToInt_of_nonneg hy]; exact DDAData.new_tile _ _
  have fx1 := Int.floor_le cam.position.x
  have fx2 := (Int.lt_floor_add_one cam.position.x).le
  have fy1 := Int.floor_le cam.position.y
  have fy2 := (Int.lt_floor_add_one cam.position.y).le
  refine ⟨fun h => ⟨?_, ?_, ?_⟩, fun h => ⟨?_, ?_, ?_⟩, ?_, 0, le_refl _, ?_, ?_, ?_, ?_, ?_⟩
  · exact (DDAData.new_step_eq_zero _ _).mp h
  · rw [tx]; exact fx1
  · rw [tx]; exact fx2
  · exact (DDAData.new_step_eq_zero _ _).mp h
  · rw [ty]; exact fy1
  · rw [ty]; exact fy2
  · rw [tx, ty, he]; rfl
  · intro h; simp [rayInit] at h
  · intro h; simp [rayInit] at h
  · exact DDAData.new_clock _ hx
  · exact DDAData.new_clock _ hy
  · intro u h0 h1
    have hu : u = 0 := le_antisymm h1 h0
    refine ⟨⌊cam.position.x⌋, ⌊cam.position.y⌋, he, ?_⟩
    rw [hu, zero_mul, zero_mul, add_zero, add_zero]
    exact ⟨fx1, fx2, fy1, fy2⟩

theorem rayClock_body (level : Int → Int → Int) (px rx py ry : K) (s : RayState K)
    (hv : RayInv level px rx py ry s) (hw : s.wall_id = 0)
    (hc : RayClock level px rx py ry s) : RayClock level px rx py ry (rayBody level s) := by
  obtain ⟨hsx, hsy, hne, ox, oy, -, -, -⟩ := hv
  obtain ⟨ix, iy, hid, now, hnow, -, -, cx, cy, hpath⟩ := hc
  have hempty : level s.dda_data_x.tile s.dda_data_y.tile = 0 := by rw [← hid]; exact hw
  rcases rayBody_cases level s with ⟨hlt, hb⟩ | ⟨hlt, hb⟩
  · have hm := selected_x_moves hsx hlt
    obtain ⟨a, b, ha, hbd⟩ : ∃ a b : K, s.dda_data_x.init_dist = Flt.fin a ∧
        s.dda_data_x.delta_dist = Flt.fin b := by
      rcases hsx with ⟨h0, -, -⟩ | ⟨-, a, b, ha, hb⟩
      · omega
      · exact ⟨a, b, ha, hb⟩
    obtain ⟨hb0, hlo, hhi⟩ := cx a b ha hbd
    have hylt : ∀ a1 : K, s.dda_data_y.init_dist = Flt.fin a1 → a < a1 := by
      intro a1 h1
      rw [ha, h1] at hlt
      simpa [Flt.lt] using hlt
    have hspan : ∀ u : K, now ≤ u → u ≤ a →
        InTile s.dda_data_x.tile s.dda_data_y.tile (px + u * rx) (py + u * ry) := by
      intro u h1 h2
      have sx := axis_span hsx ox ix u (fun a1 b1 ha1 hb1 => by
        rw [ha] at ha1
        rw [hbd] at hb1
        have ea : a = a1 := Flt.fin.inj ha1
        have eb : b = b1 := Flt.fin.inj hb1
        rw [← ea, ← eb]
        exact ⟨hb0, by linarith, h2⟩)
      have sy := axis_span hsy oy iy u (fun a1 b1 ha1 hb1 => by
        obtain ⟨g0, g1, g2⟩ := cy a1 b1 ha1 hb1
        have := hylt a1 ha1
        exact ⟨g0, by linarith, by linarith⟩)
      exact ⟨sx.1, sx.2, sy.1, sy.2⟩
    rw [hb]
    refine ⟨?_, iy, rfl, a, by linarith, ?_, ?_, ?_, ?_, ?_⟩
    · intro h
      have h0 : s.dda_data_x.step = 0 := h
      omega
    · intro _
      show Flt.sub (Flt.add s.dda_data_x.init_dist s.dda_data_x.delta_dist)
        s.dda_data_x.delta_dist = Flt.fin a
      rw [ha, hbd]
      simp [Flt.add, Flt.sub]
    · intro h
      simp at h
    · intro a1 b1 ha1 hb1
      have ha2 : Flt.add s.dda_data_x.init_dist s.dda_data_x.delta_dist = Flt.fin a1 := ha1
      have hb2 : s.dda_data_x.delta_dist = Flt.fin b1 := hb1
      rw [ha, hbd] at ha2
      rw [hbd] at hb2
      have ea : a + b = a1 := Flt.fin.inj ha2
      have eb : b = b1 := Flt.fin.inj hb2
      rw [← ea, ← eb]
      exact ⟨hb0, by linarith, by linarith⟩
    · intro a1 b1 ha1 hb1
      obtain ⟨g0, g1, g2⟩ := cy a1 b1 ha1 hb1
      have := hylt a1 ha1
      exact ⟨g0, by linarith, by linarith⟩
    · intro u h0 h1
      by_cases hu : u ≤ now
      · exact hpath u h0 hu
      · exact ⟨s.dda_data_x.tile, s.dda_data_y.tile, hempty,
          hspan u (not_le.mp hu).le h1⟩
  · have hm := selected_y_moves hsx hsy hne hlt
    obtain ⟨a, b, ha, hbd⟩ : ∃ a b : K, s.dda_data_y.init_dist = Flt.fin a ∧
        s.dda_data_y.delta_dist = Flt.fin b := by
      rcases hsy with ⟨h0, -, -⟩ | ⟨-, a, b, ha, hb⟩
      · omega
      · exact ⟨a, b, ha, hb⟩
    obtain ⟨hb0, hlo, hhi⟩ := cy a b ha hbd
    have hxle : ∀ a1 : K, s.dda_data_x.init_dist = Flt.fin a1 → a ≤ a1 := by
      intro a1 h1
      rw [ha, h1] at hlt
      simpa [Flt.lt] using hlt
    have hspan : ∀ u : K, now ≤ u → u ≤ a →
        InTile s.dda_data_x.tile s.dda_data_y.tile (px + u * rx) (py + u * ry) := by
      intro u h1 h2
      have sy := axis_span hsy oy iy u (fun a1 b1 ha1 hb1 => by
        rw [ha] at ha1
        rw [hbd] at hb1
        have ea : a = a1 := Flt.fin.inj ha1
        have eb : b = b1 := Flt.fin.inj hb1
        rw [← ea, ← eb]
        exact ⟨hb0, by linarith, h2⟩)
      have sx := axis_span hsx ox ix u (fun a1 b1 ha1 hb1 => by
        obtain ⟨g0, g1, g2⟩ := cx a1 b1 ha1 hb1
        have := hxle a1 ha1
        exact ⟨g0, by linarith, by linarith⟩)
      exact ⟨sx.1, sx.2, sy.1, sy.2⟩
    rw [hb]
    refine ⟨ix, ?_, rfl, a, by linarith, ?_, ?_, ?_, ?_, ?_⟩
    · intro h
      have h0 : s.dda_data_y.step = 0 := h
      omega
    · intro h
      simp at h
    · intro _
      show Flt.sub (Flt.add s.dda_data_y.init_dist s.dda_data_y.delta_dist)
        s.dda_data_y.delta_dist = Flt.fin a
      rw [ha, hbd]
      simp [Flt.add, Flt.sub]
    · intro a1 b1 ha1 hb1
      obtain ⟨g0, g1, g2⟩ := cx a1 b1 ha1 hb1
      have := hxle a1 ha1
      exact ⟨g0, by linarith, by linarith⟩
    · intro a1 b1 ha1 hb1
      have ha2 : Flt.add s.dda_data_y.init_dist s.dda_data_y.delta_dist = Flt.fin a1 := ha1
      have hb2 : s.dda_data_y.delta_dist = Flt.fin b1 := hb1
      rw [ha, hbd] at ha2
      rw [hbd] at hb2
      have ea : a + b = a1 := Flt.fin.inj ha2
      have eb : b = b1 := Flt.fin.inj hb2
      rw [← ea, ← eb]
      exact ⟨hb0, by linarith, by linarith⟩
    · intro u h0 h1
      by_cases hu : u ≤ now
      · exact hpath u h0 hu
      · exact ⟨s.dda_data_x.tile, s.dda_data_y.tile, hempty,
          hspan u (not_le.mp hu).le h1⟩

/-- The distance returned from a state that satisfies both loop invariants
is the parameter up to which the ray has been followed. -/
theorem rayResult_clock {s : RayState K} {r : RayData K} {now : K}
    (nx : s.wall_side = some WallSide.kXSide →
      Flt.sub s.dda_data_x.init_dist s.dda_data_x.delta_dist = Flt.fin now)
    (ny : s.wall_side = some WallSide.kYSide →
      Flt.sub s.dda_data_y.init_dist s.dda_data_y.delta_dist = Flt.fin now)
    (hr : rayResult s = some r) : r.distance = Flt.fin now := by
  unfold rayResult at hr
  rcases hs : s.wall_side with _ | side
  · rw [hs] at hr; exact absurd hr (by simp)
  · cases side
    · rw [hs] at hr
      simp only [Option.some.injEq] at hr
      subst hr
      exact nx hs
    · rw [hs] at hr
      simp only [Option.some.injEq] at hr
      subst hr
      exact ny hs

/-- C16: on a closed map, for a camera at non-negative coordinates in an
empty tile of the map and every `plane_scalar`: if the ray direction is not
zero, `CalculateRay` returns a result for some amount of fuel; and whenever
the loop ends in a state `s` and `CalculateRay` returns `r`, the tile of `s`
is the nonzero tile `r.wall_id`, and the returned distance is a finite `t`,
not negative, that is the ray parameter of the face that was hit: every
point `position + u * ray_direction` with `0 ≤ u ≤ t` lies in a closed tile
that is empty, the point at `t` lies on the closed hit tile, and for `kXSide`
its x coordinate `position.x + t * ray_direction.x` equals the hit tile's x
when the step is `+1` and the hit tile's x plus 1 when the step is `-1`; for
`kYSide` the same holds on the Y axis. -/
theorem CalculateRay_distance_hits_face (level : Int → Int → Int) (W H : Int) (cam : Camera K)
    (plane_scalar : K) (hc : ClosedMap level W H)
    (hx : 0 ≤ cam.position.x) (hy : 0 ≤ cam.position.y)
    (hW : ⌊cam.position.x⌋ < W) (hH : ⌊cam.position.y⌋ < H)
    (he : level ⌊cam.position.x⌋ ⌊cam.position.y⌋ = 0) :
    (¬ ((cam.direction.add (cam.plane.mul plane_scalar)).x = 0 ∧
        (cam.direction.add (cam.plane.mul plane_scalar)).y = 0) →
      ∃ (fuel : Nat) (s : RayState K) (r : RayData K),
        rayLoop level fuel (rayInit cam plane_scalar) = some s ∧
        cam.CalculateRay level plane_scalar fuel = some r) ∧
    ∀ (fuel : Nat) (s : RayState K) (r : RayData K),
      rayLoop level fuel (rayInit cam plane_scalar) = some s →
      cam.CalculateRay level plane_scalar fuel = some r →
      r.wall_id = level s.dda_data_x.tile s.dda_data_y.tile ∧ r.wall_id ≠ 0 ∧
      ∃ t : K, r.distance = Flt.fin t ∧ 0 ≤ t ∧
        (∀ u : K, 0 ≤ u → u ≤ t →
          ∃ i j : Int, level i j = 0 ∧
            InTile i j (cam.position.x + u * (cam.direction.add (cam.plane.mul plane_scalar)).x)
              (cam.position.y + u * (cam.direction.add (cam.plane.mul plane_scalar)).y)) ∧
        InTile s.dda_data_x.tile s.dda_data_y.tile
          (cam.position.x + t * (cam.direction.add (cam.plane.mul plane_scalar)).x)
          (cam.position.y + t * (cam.direction.add (cam.plane.mul plane_scalar)).y) ∧
        (r.wall_side = WallSide.kXSide →
          ((s.dda_data_x.step = 1 ∧
              cam.position.x + t * (cam.direction.add (cam.plane.mul plane_scalar)).x
                = (s.dda_data_x.tile : K)) ∨
           (s.dda_data_x.step = -1 ∧
              cam.position.x + t * (cam.direction.add (cam.plane.mul plane_scalar)).x
                = (s.dda_data_x.tile : K) + 1))) ∧
        (r.wall_side = WallSide.kYSide →
          ((s.dda_data_y.step = 1 ∧
              cam.position.y + t * (cam.direction.add (cam.plane.mul plane_scalar)).y
                = (s.dda_data_y.tile : K)) ∨
           (s.dda_data_y.step = -1 ∧
              cam.position.y + t * (cam.direction.add (cam.plane.mul plane_scalar)).y
                = (s.dda_data_y.tile : K) + 1))) := by
  have htx : truncToInt cam.position.x = ⌊cam.position.x⌋ := truncToInt_of_nonneg hx
  have hty : truncToInt cam.position.y = ⌊cam.position.y⌋ := truncToInt_of_nonneg hy
  constructor
  · intro hne
    have hi : InteriorTile W H (truncToInt cam.position.x) (truncToInt cam.position.y) := by
      rw [htx, hty]
      exact interior_of_empty_tile hc (Int.floor_nonneg.mpr hx) hW (Int.floor_nonneg.mpr hy) hH he
    obtain ⟨fuel, s1, -, -, hs, hl⟩ := rayLoop_returns hc cam plane_scalar hi hne
    obtain ⟨r, hr, -⟩ := rayResult_of_side hs
    have hl0 : rayLoop level fuel (rayInit cam plane_scalar) = some s1 := hl 0
    refine ⟨fuel, s1, r, hl0, ?_⟩
    rw [Camera.CalculateRay, hl0]
    exact hr
  · intro fuel s r hl hr
    rw [Camera.CalculateRay, hl] at hr
    have hr1 : rayResult s = some r := hr
    by_cases hne : (cam.direction.add (cam.plane.mul plane_scalar)).x = 0 ∧
        (cam.direction.add (cam.plane.mul plane_scalar)).y = 0
    · exfalso
      have hnone := rayLoop_zero_ray level cam plane_scalar fuel (by rw [htx, hty]; exact he) hne
      rw [hnone] at hl
      exact absurd hl (by simp)
    · obtain ⟨hv, hck⟩ := rayLoop_preserves_running level
        (fun s => RayInv level cam.position.x
            (cam.direction.add (cam.plane.mul plane_scalar)).x cam.position.y
            (cam.direction.add (cam.plane.mul plane_scalar)).y s ∧
          RayClock level cam.position.x
            (cam.direction.add (cam.plane.mul plane_scalar)).x cam.position.y
            (cam.direction.add (cam.plane.mul plane_scalar)).y s)
        (fun s hw h => ⟨rayInv_body _ _ _ _ _ s h.1, rayClock_body _ _ _ _ _ s h.1 hw h.2⟩)
        fuel _ s
        ⟨rayInv_init level cam plane_scalar hne, rayClock_init level cam plane_scalar hx hy he⟩ hl
      obtain ⟨h1, h2, h3⟩ := rayResult_face hv hr1
      have hw := rayLoop_some_wall level fuel _ s hl
      have hid : r.wall_id ≠ 0 := by
        obtain ⟨r2, hr2, hid⟩ := rayResult_of_side (s := s) (by
          intro hn
          unfold rayResult at hr1
          rw [hn] at hr1
          exact absurd hr1 (by simp))
        rw [hr1] at hr2
        injection hr2 with hr2
        rw [hr2, hid]
        exact hw
      obtain ⟨hsx, hsy, -, ox, oy, -, -, -⟩ := hv
      obtain ⟨ix, iy, -, now, hnow, nx, ny, cx, cy, hpath⟩ := hck
      have hd : r.distance = Flt.fin now := rayResult_clock nx ny hr1
      have sx := axis_span hsx ox ix now cx
      have sy := axis_span hsy oy iy now cy
      refine ⟨h1, hid, now, hd, hnow, hpath, ⟨sx.1, sx.2, sy.1, sy.2⟩, fun hs => ?_, fun hs => ?_⟩
      · obtain ⟨t, ht, hface⟩ := h2 hs
        rw [hd] at ht
        have e : now = t := Flt.fin.inj ht
        rw [e]
        exact hface
      · obtain ⟨t, ht, hface⟩ := h3 hs
        rw [hd] at ht
        have e : now = t := Flt.fin.inj ht
        rw [e]
        exact hface

/-- Witness of `CalculateRay_distance_hits_face`: the diagonal ray of
`tieCamera` in the 5 x 5 room returns a result. -/
theorem CalculateRay_distance_hits_face_witness :
    ClosedMap room5 5 5 ∧ (0 : ℚ) ≤ tieCamera.position.x ∧ (0 : ℚ) ≤ tieCamera.position.y ∧
    ⌊tieCamera.position.x⌋ < 5 ∧ ⌊tieCamera.position.y⌋ < 5 ∧
    room5 ⌊tieCamera.position.x⌋ ⌊tieCamera.position.y⌋ = 0 ∧
    ∃ (fuel : Nat) (s : RayState ℚ) (r : RayData ℚ),
      rayLoop room5 fuel (rayInit tieCamera (-1)) = some s ∧
      tieCamera.CalculateRay room5 (-1) fuel = some r :=
  have hf : ⌊(5 / 2 : ℚ)⌋ = 2 := by
    rw [Int.floor_eq_iff]; constructor <;> norm_num
  have hx : (0 : ℚ) ≤ tieCamera.position.x := by
    show (0 : ℚ) ≤ 5 / 2
    norm_num
  have hW : ⌊tieCamera.position.x⌋ < 5 := by
    show ⌊(5 / 2 : ℚ)⌋ < 5
    rw [hf]; decide
  have he : room5 ⌊tieCamera.position.x⌋ ⌊tieCamera.position.y⌋ = 0 := by
    show room5 ⌊(5 / 2 : ℚ)⌋ ⌊(5 / 2 : ℚ)⌋ = 0
    rw [hf]; decide
  ⟨room5_closed, hx, hx, hW, hW, he,
    (CalculateRay_distance_hits_face room5 5 5 tieCamera (-1) room5_closed hx hx hW hW he).1 (by
      simp [tieCamera, Vector.add, Vector.mul])⟩

end RayCasting
